import Mathlib

/-!
# Verification of the sat-scheduler core against its specification

Shallow embedding of the `satscheduler` Python package (greyskyy/sat-scheduler).

Modelling conventions:
* `org.orekit.time.AbsoluteDate` is a continuous time instant; it is modelled as a
  rational number (`Date := ℚ`).  `AbsoluteDate.compareTo` returns -1/0/1 and is
  modelled by `compareTo` below.  `shiftedBy`/`durationFrom` become rational
  addition/subtraction.
* `DateInterval` (src/satscheduler/utils/dateutils.py) is a start/stop pair; the
  Python constructor swaps a reversed pair, modelled by `DateInterval.make`.
* `DateIntervalList` stores a flattened tuple of dates; we model it as the list of
  its intervals (the `__iter__`/`__getitem__` view), with `flattenDates` recovering
  the `to_date_list` view used by `compliment`.
* Python exceptions (TypeError from unpacking, wrong-arity calls) are modelled with
  `Except PyErr`.
-/

namespace SatScheduler

abbrev Date := ℚ

/-- `AbsoluteDate.compareTo`: -1, 0 or 1. -/
def compareTo (a b : Date) : Int :=
  if a < b then -1 else if b < a then 1 else 0

theorem compareTo_le_zero (a b : Date) : compareTo a b ≤ 0 ↔ a ≤ b := by
  rcases lt_trichotomy a b with h | h | h
  · simp [compareTo, h, le_of_lt h]
  · simp [compareTo, h]
  · simp [compareTo, h, not_lt_of_lt h, not_le.mpr h]

theorem compareTo_lt_zero (a b : Date) : compareTo a b < 0 ↔ a < b := by
  rcases lt_trichotomy a b with h | h | h
  · simp [compareTo, h]
  · simp [compareTo, h]
  · simp [compareTo, h, not_lt_of_lt h]

theorem compareTo_ge_zero (a b : Date) : 0 ≤ compareTo a b ↔ b ≤ a := by
  rcases lt_trichotomy a b with h | h | h
  · simp [compareTo, h, not_le.mpr h]
  · simp [compareTo, h]
  · simp [compareTo, h, not_lt_of_lt h, le_of_lt h]

theorem compareTo_ge_one (a b : Date) : 1 ≤ compareTo a b ↔ b < a := by
  rcases lt_trichotomy a b with h | h | h
  · simp [compareTo, h, not_lt_of_lt h]
  · simp [compareTo, h]
  · simp [compareTo, h, not_lt_of_lt h]

theorem compareTo_eq_zero (a b : Date) : compareTo a b = 0 ↔ a = b := by
  rcases lt_trichotomy a b with h | h | h
  · simp [compareTo, h, ne_of_lt h]
  · simp [compareTo, h]
  · simp [compareTo, h, not_lt_of_lt h, (ne_of_lt h).symm]

theorem compareTo_pos (a b : Date) : 0 < compareTo a b ↔ b < a := by
  rw [show ((0 : Int) < compareTo a b ↔ 1 ≤ compareTo a b) by omega]
  exact compareTo_ge_one a b

/-- `DateInterval` of dateutils.py: a start/stop pair of dates. -/
structure DateInterval where
  start : Date
  stop : Date
deriving DecidableEq, Repr

/-- The `DateInterval.__init__` constructor: swaps the endpoints when
`start.compareTo(stop) > 0`. -/
def DateInterval.make (start stop : Date) : DateInterval :=
  if 0 < compareTo start stop then ⟨stop, start⟩ else ⟨start, stop⟩

/-- `DateInterval.duration_secs`. -/
def DateInterval.duration_secs (i : DateInterval) : ℚ := i.stop - i.start

/-- Well-formedness of an interval (all Python `DateInterval`s satisfy this because
the constructor canonicalizes). -/
def wfI (i : DateInterval) : Prop := i.start ≤ i.stop

theorem wfI_make (a b : Date) : wfI (DateInterval.make a b) := by
  unfold DateInterval.make wfI
  split
  · rename_i h
    exact le_of_lt ((compareTo_pos a b).mp h)
  · rename_i h
    exact (compareTo_le_zero a b).mp (by omega)

theorem make_of_le {a b : Date} (h : a ≤ b) : DateInterval.make a b = ⟨a, b⟩ := by
  unfold DateInterval.make
  rw [if_neg]
  rw [compareTo_pos]
  exact not_lt_of_le h

/-- `DateInterval.overlaps(other, startInclusive, stopInclusive)`.
The `other is None` early-return is dropped: all call sites pass an interval. -/
def DateInterval.overlaps (s other : DateInterval)
    (startInclusive : Bool := true) (stopInclusive : Bool := false) : Bool :=
  let v0 : Int := match startInclusive with | true => 0 | false => -1
  let v1 : Int := match stopInclusive with | true => 0 | false => 1
  decide (compareTo s.start other.stop ≤ v0) && decide (v1 ≤ compareTo s.stop other.start)

/-- With the default flags the source condition is `a ≤ d ∧ c < b` (note: `a ≤ d`,
not the strict `a < d`). -/
theorem overlaps_default_eq (s o : DateInterval) :
    (s.overlaps o true false = true) ↔ (s.start ≤ o.stop ∧ o.start < s.stop) := by
  simp only [DateInterval.overlaps, Bool.and_eq_true, decide_eq_true_eq]
  rw [compareTo_le_zero, compareTo_ge_one]

/-- Both-inclusive flags (used by `_reduce`): the condition is `a ≤ d ∧ c ≤ b`. -/
theorem overlaps_incl_eq (s o : DateInterval) :
    (s.overlaps o true true = true) ↔ (s.start ≤ o.stop ∧ o.start ≤ s.stop) := by
  simp only [DateInterval.overlaps, Bool.and_eq_true, decide_eq_true_eq]
  rw [compareTo_le_zero, compareTo_ge_zero]

/-- `DateInterval.union`: earliest start to latest stop. -/
def DateInterval.union (s o : DateInterval) : DateInterval :=
  let t0 := if compareTo s.start o.start ≤ 0 then s.start else o.start
  let t1 := if 0 ≤ compareTo s.stop o.stop then s.stop else o.stop
  DateInterval.make t0 t1

theorem union_eq (s o : DateInterval) (hs : wfI s) :
    s.union o = ⟨min s.start o.start, max s.stop o.stop⟩ := by
  unfold DateInterval.union
  have h1 : (if compareTo s.start o.start ≤ 0 then s.start else o.start)
      = min s.start o.start := by
    split <;> rename_i h <;> rw [compareTo_le_zero] at h
    · exact (min_eq_left h).symm
    · exact (min_eq_right (le_of_not_le h)).symm
  have h2 : (if 0 ≤ compareTo s.stop o.stop then s.stop else o.stop)
      = max s.stop o.stop := by
    split <;> rename_i h <;> rw [compareTo_ge_zero] at h
    · exact (max_eq_left h).symm
    · exact (max_eq_right (le_of_not_le h)).symm
  simp only [h1, h2]
  apply make_of_le
  calc min s.start o.start ≤ s.start := min_le_left _ _
    _ ≤ s.stop := hs
    _ ≤ max s.stop o.stop := le_max_left _ _

/-- `DateInterval.intersect`: latest start to earliest stop, `None` when empty. -/
def DateInterval.intersect (s o : DateInterval) : Option DateInterval :=
  let t0 := if 0 ≤ compareTo s.start o.start then s.start else o.start
  let t1 := if compareTo s.stop o.stop ≤ 0 then s.stop else o.stop
  if compareTo t0 t1 < 0 then some (DateInterval.make t0 t1) else none

theorem intersect_eq (s o : DateInterval) :
    s.intersect o = if max s.start o.start < min s.stop o.stop
      then some ⟨max s.start o.start, min s.stop o.stop⟩ else none := by
  unfold DateInterval.intersect
  have h1 : (if 0 ≤ compareTo s.start o.start then s.start else o.start)
      = max s.start o.start := by
    split <;> rename_i h <;> rw [compareTo_ge_zero] at h
    · exact (max_eq_left h).symm
    · exact (max_eq_right (le_of_not_le h)).symm
  have h2 : (if compareTo s.stop o.stop ≤ 0 then s.stop else o.stop)
      = min s.stop o.stop := by
    split <;> rename_i h <;> rw [compareTo_le_zero] at h
    · exact (min_eq_left h).symm
    · exact (min_eq_right (le_of_not_le h)).symm
  simp only [h1, h2, compareTo_lt_zero]
  split <;> rename_i h
  · rw [make_of_le (le_of_lt h)]
  · rfl

/-- `DateInterval.__lt__`: lexicographic on (start, stop). -/
def DateInterval.pylt (s o : DateInterval) : Bool :=
  let rv := compareTo s.start o.start
  if rv = 0 then decide (compareTo s.stop o.stop < 0) else decide (rv < 0)

theorem pylt_eq (s o : DateInterval) :
    (s.pylt o = true) ↔ (s.start < o.start ∨ (s.start = o.start ∧ s.stop < o.stop)) := by
  simp only [DateInterval.pylt]
  rcases lt_trichotomy s.start o.start with h | h | h
  · simp [compareTo, h, ne_of_lt h]
  · simp only [compareTo, h, lt_irrefl, if_false, if_pos rfl, decide_eq_true_eq]
    rcases lt_trichotomy s.stop o.stop with h2 | h2 | h2
    · simp [h2]
    · simp [h2]
    · simp [h2, not_lt_of_lt h2]
  · simp [compareTo, not_lt_of_lt h, h, not_lt.mpr (le_of_lt h), (ne_of_lt h).symm]

/-- `_contained_in_date(date, start, stop, startInclusive, stopInclusive)`. -/
def containedInDate (date start stop : Date)
    (startInclusive : Bool := true) (stopInclusive : Bool := false) : Bool :=
  let v0 : Int := match startInclusive with | true => 0 | false => -1
  let v1 : Int := match stopInclusive with | true => 0 | false => 1
  decide (compareTo start date ≤ v0) && decide (v1 ≤ compareTo stop date)

theorem containedInDate_default_eq (d a b : Date) :
    (containedInDate d a b true false = true) ↔ (a ≤ d ∧ d < b) := by
  simp only [containedInDate, Bool.and_eq_true, decide_eq_true_eq]
  rw [compareTo_le_zero, compareTo_ge_one]

theorem containedInDate_incl_eq (d a b : Date) :
    (containedInDate d a b true true = true) ↔ (a ≤ d ∧ d ≤ b) := by
  simp only [containedInDate, Bool.and_eq_true, decide_eq_true_eq]
  rw [compareTo_le_zero, compareTo_ge_zero]

/-- `DateInterval.contains` on a date argument (dispatches to `_contained_in_date`). -/
def DateInterval.containsDate (s : DateInterval) (d : Date)
    (startInclusive : Bool := true) (stopInclusive : Bool := false) : Bool :=
  containedInDate d s.start s.stop startInclusive stopInclusive

/-! ## DateIntervalList -/

/-- Strict interval order `DateInterval.__lt__` as a relation. -/
def ivlLt (a b : DateInterval) : Prop :=
  a.start < b.start ∨ (a.start = b.start ∧ a.stop < b.stop)

/-- The non-strict order induced by `__lt__` through `functools.total_ordering`
(`a ≤ b ↔ ¬ b < a`): lexicographic on (start, stop).  `list.sort()` sorts by this
order; since it is total and antisymmetric the sorted arrangement is unique, so any
correct sort (here insertion sort) produces the same list. -/
def ivlLe (a b : DateInterval) : Prop :=
  a.start < b.start ∨ (a.start = b.start ∧ a.stop ≤ b.stop)

instance : DecidableRel ivlLt := fun a b => by unfold ivlLt; infer_instance

instance : DecidableRel ivlLe := fun a b => by unfold ivlLe; infer_instance

instance : IsTotal DateInterval ivlLe where
  total a b := by
    unfold ivlLe
    rcases lt_trichotomy a.start b.start with h | h | h
    · exact Or.inl (Or.inl h)
    · rcases le_total a.stop b.stop with h2 | h2
      · exact Or.inl (Or.inr ⟨h, h2⟩)
      · exact Or.inr (Or.inr ⟨h.symm, h2⟩)
    · exact Or.inr (Or.inl h)

instance : IsTrans DateInterval ivlLe where
  trans a b c hab hbc := by
    unfold ivlLe at *
    rcases hab with h1 | ⟨h1, h1'⟩ <;> rcases hbc with h2 | ⟨h2, h2'⟩
    · exact Or.inl (lt_trans h1 h2)
    · exact Or.inl (h2 ▸ h1)
    · exact Or.inl (h1 ▸ h2)
    · exact Or.inr ⟨h1.trans h2, h1'.trans h2'⟩

theorem ivlLe_start {a b : DateInterval} (h : ivlLe a b) : a.start ≤ b.start := by
  rcases h with h | ⟨h, _⟩
  · exact le_of_lt h
  · exact le_of_eq h

theorem not_ivlLt_iff (a b : DateInterval) : ¬ ivlLt b a ↔ ivlLe a b := by
  unfold ivlLt ivlLe
  constructor
  · intro h
    rcases lt_trichotomy a.start b.start with h1 | h1 | h1
    · exact Or.inl h1
    · rcases le_or_lt a.stop b.stop with h2 | h2
      · exact Or.inr ⟨h1, h2⟩
      · exact absurd (Or.inr ⟨h1.symm, h2⟩) h
    · exact absurd (Or.inl h1) h
  · rintro (h | ⟨h, h'⟩) <;> rintro (h2 | ⟨h2, h2'⟩)
    · exact absurd h (not_lt_of_lt h2)
    · exact absurd h (h2 ▸ lt_irrefl _)
    · exact absurd h2 (h ▸ lt_irrefl _)
    · exact absurd h2' (not_lt_of_le h')

/-- `pylt` decides `ivlLt`. -/
theorem pylt_iff_ivlLt (a b : DateInterval) : (a.pylt b = true) ↔ ivlLt a b :=
  pylt_eq a b

/-- `combined.sort()` in `DateIntervalList._reduce`. -/
def sortIntervals (l : List DateInterval) : List DateInterval :=
  l.insertionSort ivlLe

/-- The merge sweep of `DateIntervalList._reduce`: repeatedly compare the current
element with its predecessor (`combined[i].overlaps(combined[j], startInclusive=True,
stopInclusive=True)`), replacing the predecessor with the union and popping the
current element on overlap, otherwise advancing. -/
def mergeLoop : List DateInterval → List DateInterval
  | [] => []
  | [a] => [a]
  | a :: b :: rest =>
    if b.overlaps a true true then mergeLoop (a.union b :: rest)
    else a :: mergeLoop (b :: rest)
termination_by l => l.length

/-- `DateIntervalList._reduce` / construction with `reduce_input=True`. -/
def reduceIntervals (l : List DateInterval) : List DateInterval :=
  mergeLoop (sortIntervals l)

/-- Separation of adjacent intervals in a reduced list: the previous interval stops
strictly before the next one starts. -/
def sepRel (a b : DateInterval) : Prop := a.stop < b.start

/-- An instant is covered by a list of half-open intervals. -/
def coveredBy (l : List DateInterval) (t : Date) : Prop :=
  ∃ i ∈ l, i.start ≤ t ∧ t < i.stop

theorem coveredBy_nil (t : Date) : ¬ coveredBy [] t := by
  rintro ⟨i, hi, _⟩
  exact absurd hi (List.not_mem_nil i)

theorem coveredBy_cons {a : DateInterval} {l : List DateInterval} {t : Date} :
    coveredBy (a :: l) t ↔ (a.start ≤ t ∧ t < a.stop) ∨ coveredBy l t := by
  unfold coveredBy
  simp [List.mem_cons, or_and_right, exists_or]

theorem coveredBy_append {l1 l2 : List DateInterval} {t : Date} :
    coveredBy (l1 ++ l2) t ↔ coveredBy l1 t ∨ coveredBy l2 t := by
  unfold coveredBy
  constructor
  · rintro ⟨i, hi, h⟩
    rcases List.mem_append.mp hi with hm | hm
    · exact Or.inl ⟨i, hm, h⟩
    · exact Or.inr ⟨i, hm, h⟩
  · rintro (⟨i, hi, h⟩ | ⟨i, hi, h⟩)
    · exact ⟨i, List.mem_append.mpr (Or.inl hi), h⟩
    · exact ⟨i, List.mem_append.mpr (Or.inr hi), h⟩

theorem coveredBy_perm {l1 l2 : List DateInterval} (h : l1.Perm l2) (t : Date) :
    coveredBy l1 t ↔ coveredBy l2 t := by
  unfold coveredBy
  constructor <;> rintro ⟨i, hi, hc⟩
  · exact ⟨i, h.mem_iff.mp hi, hc⟩
  · exact ⟨i, h.mem_iff.mpr hi, hc⟩

theorem mergeLoop_main : ∀ (n : ℕ) (l : List DateInterval), l.length ≤ n →
    List.Pairwise ivlLe l → (∀ i ∈ l, wfI i) →
    (∀ i ∈ mergeLoop l, wfI i) ∧ List.Chain' sepRel (mergeLoop l) ∧
    (∀ t, coveredBy (mergeLoop l) t ↔ coveredBy l t) ∧
    (mergeLoop l).head?.map DateInterval.start = l.head?.map DateInterval.start := by
  intro n
  induction n with
  | zero =>
    intro l hlen _ _
    have : l = [] := List.length_eq_zero.mp (Nat.le_zero.mp hlen)
    subst this
    simp [mergeLoop]
  | succ n ih =>
    intro l hlen hsort hwf
    match l with
    | [] => simp [mergeLoop]
    | [a] =>
      refine ⟨?_, ?_, ?_, ?_⟩ <;> simp [mergeLoop]
      exact hwf a (by simp)
    | a :: b :: rest =>
      have hab : ivlLe a b := (List.pairwise_cons.mp hsort).1 b (by simp)
      have hwa : wfI a := hwf a (by simp)
      have hwb : wfI b := hwf b (by simp)
      have hstart : a.start ≤ b.start := ivlLe_start hab
      have hunion : a.union b = ⟨a.start, max a.stop b.stop⟩ := by
        rw [union_eq a b hwa]
        congr 1
        exact min_eq_left hstart
      by_cases hov : b.overlaps a true true = true
      · -- merge case: b.start ≤ a.stop
        have hcond := (overlaps_incl_eq b a).mp hov
        have hba : b.start ≤ a.stop := hcond.1
        have hstep : mergeLoop (a :: b :: rest) = mergeLoop (a.union b :: rest) := by
          rw [mergeLoop, if_pos hov]
        have hsort' : List.Pairwise ivlLe (a.union b :: rest) := by
          rw [List.pairwise_cons]
          refine ⟨?_, (List.pairwise_cons.mp (List.pairwise_cons.mp hsort).2).2⟩
          intro r hr
          have har : ivlLe a r := (List.pairwise_cons.mp hsort).1 r (by simp [hr])
          have hbr : ivlLe b r := (List.pairwise_cons.mp (List.pairwise_cons.mp hsort).2).1 r hr
          rw [hunion]
          rcases le_total b.stop a.stop with hm | hm
          · rw [max_eq_left hm]
            exact har
          · rw [max_eq_right hm]
            rcases har with h1 | ⟨h1, _⟩
            · exact Or.inl h1
            · have hbs : b.start = r.start :=
                le_antisymm (ivlLe_start hbr) (h1 ▸ hstart)
              rcases hbr with h2 | ⟨_, h2'⟩
              · exact absurd h2 (hbs ▸ lt_irrefl _)
              · exact Or.inr ⟨h1, h2'⟩
        have hwf' : ∀ i ∈ a.union b :: rest, wfI i := by
          intro i hi
          rcases List.mem_cons.mp hi with h | h
          · subst h
            exact wfI_make _ _
          · exact hwf i (by simp [h])
        have hlen' : (a.union b :: rest).length ≤ n := by
          simp at hlen ⊢
          omega
        obtain ⟨iwf, ichain, icov, ihead⟩ := ih (a.union b :: rest) hlen' hsort' hwf'
        rw [hstep]
        refine ⟨iwf, ichain, ?_, ?_⟩
        · intro t
          rw [icov t]
          rw [coveredBy_cons, coveredBy_cons, coveredBy_cons]
          constructor
          · rintro (⟨h1, h2⟩ | h)
            · rw [hunion] at h1 h2
              simp only at h1 h2
              rcases lt_or_le t a.stop with h3 | h3
              · exact Or.inl ⟨h1, h3⟩
              · refine Or.inr (Or.inl ⟨le_trans hba h3, ?_⟩)
                rcases max_cases a.stop b.stop with ⟨he, _⟩ | ⟨he, _⟩
                · exact absurd (he ▸ h2) (not_lt_of_le h3)
                · exact he ▸ h2
            · exact Or.inr (Or.inr h)
          · rintro (⟨h1, h2⟩ | ⟨h1, h2⟩ | h)
            · refine Or.inl ?_
              rw [hunion]
              exact ⟨h1, lt_of_lt_of_le h2 (le_max_left _ _)⟩
            · refine Or.inl ?_
              rw [hunion]
              exact ⟨le_trans hstart h1, lt_of_lt_of_le h2 (le_max_right _ _)⟩
            · exact Or.inr h
        · rw [ihead]
          rw [hunion]
          simp
      · -- no merge: a.stop < b.start, emit a
        have hsep : a.stop < b.start := by
          by_contra hc
          push_neg at hc
          exact hov ((overlaps_incl_eq b a).mpr ⟨hc, le_trans hstart hwb⟩)
        have hstep : mergeLoop (a :: b :: rest) = a :: mergeLoop (b :: rest) := by
          rw [mergeLoop, if_neg (by simp [hov])]
        have hlen' : (b :: rest).length ≤ n := by
          simp at hlen ⊢
          omega
        obtain ⟨iwf, ichain, icov, ihead⟩ :=
          ih (b :: rest) hlen' (List.pairwise_cons.mp hsort).2 (by
            intro i hi
            exact hwf i (by simp [List.mem_cons.mp hi]))
        rw [hstep]
        refine ⟨?_, ?_, ?_, ?_⟩
        · intro i hi
          rcases List.mem_cons.mp hi with h | h
          · subst h
            exact hwa
          · exact iwf i h
        · rw [List.chain'_cons']
          refine ⟨?_, ichain⟩
          intro y hy
          match he : (mergeLoop (b :: rest)).head? with
          | none => simp [he] at hy
          | some y' =>
            rw [he] at hy
            simp at hy
            subst hy
            have : (some y').map DateInterval.start = (some b).map DateInterval.start := by
              rw [← he, ihead]
              simp
            simp at this
            unfold sepRel
            rw [this]
            exact hsep
        · intro t
          rw [coveredBy_cons, coveredBy_cons, icov t]
        · simp
theorem sortIntervals_pairwise (l : List DateInterval) :
    List.Pairwise ivlLe (sortIntervals l) :=
  List.sorted_insertionSort ivlLe l

theorem sortIntervals_perm (l : List DateInterval) : (sortIntervals l).Perm l :=
  List.perm_insertionSort ivlLe l

theorem reduceIntervals_main (l : List DateInterval) (hwf : ∀ i ∈ l, wfI i) :
    (∀ i ∈ reduceIntervals l, wfI i) ∧ List.Chain' sepRel (reduceIntervals l) ∧
    (∀ t, coveredBy (reduceIntervals l) t ↔ coveredBy l t) := by
  have hwfs : ∀ i ∈ sortIntervals l, wfI i := by
    intro i hi
    exact hwf i ((sortIntervals_perm l).mem_iff.mp hi)
  obtain ⟨h1, h2, h3, _⟩ := mergeLoop_main (sortIntervals l).length (sortIntervals l)
    le_rfl (sortIntervals_pairwise l) hwfs
  refine ⟨h1, h2, ?_⟩
  intro t
  rw [show reduceIntervals l = mergeLoop (sortIntervals l) from rfl, h3 t,
    coveredBy_perm (sortIntervals_perm l) t]

/-- On a list whose adjacent intervals are strictly separated, every later interval
starts strictly after the head stops. -/
theorem chain_sep_all {a : DateInterval} {l : List DateInterval}
    (hw : ∀ i ∈ a :: l, wfI i) (h : List.Chain' sepRel (a :: l)) :
    ∀ y ∈ l, a.stop < y.start := by
  induction l generalizing a with
  | nil => simp
  | cons b rest ih =>
    intro y hy
    have hab : sepRel a b := (List.chain'_cons.mp h).1
    rcases List.mem_cons.mp hy with h1 | h1
    · subst h1
      exact hab
    · have := ih (fun i hi => hw i (by
        rcases List.mem_cons.mp hi with h2 | h2
        · simp [h2]
        · simp [h2])) (List.chain'_cons.mp h).2 y h1
      calc a.stop < b.start := hab
        _ ≤ b.stop := hw b (by simp)
        _ < y.start := this

theorem chain_sep_pairwise_sep {l : List DateInterval}
    (hw : ∀ i ∈ l, wfI i) (h : List.Chain' sepRel l) : List.Pairwise sepRel l := by
  induction l with
  | nil => exact List.Pairwise.nil
  | cons a rest ih =>
    rw [List.pairwise_cons]
    exact ⟨chain_sep_all hw h,
      ih (fun i hi => hw i (List.mem_cons_of_mem a hi)) (List.Chain'.tail h)⟩

theorem chain_sep_pairwise {l : List DateInterval}
    (hw : ∀ i ∈ l, wfI i) (h : List.Chain' sepRel l) : List.Pairwise ivlLe l := by
  induction l with
  | nil => exact List.Pairwise.nil
  | cons a rest ih =>
    rw [List.pairwise_cons]
    constructor
    · intro y hy
      refine Or.inl ?_
      calc a.start ≤ a.stop := hw a (by simp)
        _ < y.start := chain_sep_all hw h y hy
    · exact ih (fun i hi => hw i (by simp [hi])) (List.Chain'.tail h)

theorem mergeLoop_fixed {l : List DateInterval}
    (hw : ∀ i ∈ l, wfI i) (h : List.Chain' sepRel l) : mergeLoop l = l := by
  induction l with
  | nil => simp [mergeLoop]
  | cons a rest ih =>
    match rest, h, ih with
    | [], _, _ => simp [mergeLoop]
    | b :: rest', h, ih =>
      have hsep : sepRel a b := (List.chain'_cons.mp h).1
      have hnov : ¬ (b.overlaps a true true = true) := by
        rw [overlaps_incl_eq]
        rintro ⟨h1, _⟩
        exact absurd hsep (not_lt_of_le h1)
      rw [mergeLoop, if_neg (by simp [hnov])]
      have hrec := ih (fun i hi => hw i (List.mem_cons_of_mem a hi)) (List.Chain'.tail h)
      rw [hrec]

theorem reduceIntervals_idem (l : List DateInterval) (hwf : ∀ i ∈ l, wfI i) :
    reduceIntervals (reduceIntervals l) = reduceIntervals l := by
  obtain ⟨h1, h2, _⟩ := reduceIntervals_main l hwf
  have hs : sortIntervals (reduceIntervals l) = reduceIntervals l :=
    List.Sorted.insertionSort_eq (chain_sep_pairwise h1 h2)
  show mergeLoop (sortIntervals (reduceIntervals l)) = reduceIntervals l
  rw [hs, mergeLoop_fixed h1 h2]

/-! ## IntervalListOperations -/

/-- The two-pointer loop of `IntervalListOperations.intersection`: while both indexes
are in range (so the in-loop `if l1 and l2` guard is always true), append
`l1.intersect(l2)` when non-empty, then advance the index of the lexicographically
smaller interval (`if l1 < l2: i += 1 else: j += 1`). -/
def interLoop : List DateInterval → List DateInterval → List DateInterval
  | [], _ => []
  | _ :: _, [] => []
  | a :: t1, b :: t2 =>
    (match a.intersect b with
     | some x => [x]
     | none => []) ++
    (if a.pylt b then interLoop t1 (b :: t2) else interLoop (a :: t1) t2)
termination_by l1 l2 => l1.length + l2.length

/-- `IntervalListOperations.intersection`; the result is built with
`reduce_input=False`, i.e. the emitted intervals in order. -/
def intersectionLists (l1 l2 : List DateInterval) : List DateInterval :=
  interLoop l1 l2

theorem intersect_some_bounds {a b x : DateInterval} (h : a.intersect b = some x) :
    a.start ≤ x.start ∧ x.stop ≤ a.stop ∧ b.start ≤ x.start ∧ x.stop ≤ b.stop ∧
    x.start < x.stop := by
  rw [intersect_eq] at h
  split at h
  · rename_i hc
    injection h with h
    subst h
    exact ⟨le_max_left _ _, min_le_left _ _, le_max_right _ _, min_le_right _ _, hc⟩
  · exact absurd h (by simp)

/-- Every interval emitted by the intersection loop is a sub-interval of a member of
the left list (and of a member of the right list), and is non-degenerate. -/
theorem interLoop_subset : ∀ (l1 l2 : List DateInterval), ∀ x ∈ interLoop l1 l2,
    (∃ a ∈ l1, a.start ≤ x.start ∧ x.stop ≤ a.stop) ∧
    (∃ b ∈ l2, b.start ≤ x.start ∧ x.stop ≤ b.stop) ∧ x.start < x.stop := by
  intro l1
  induction l1 with
  | nil =>
    intro l2 x hx
    simp [interLoop] at hx
  | cons a t1 ih1 =>
    intro l2
    induction l2 with
    | nil =>
      intro x hx
      simp [interLoop] at hx
    | cons b t2 ih2 =>
      intro x hx
      rw [interLoop] at hx
      rcases List.mem_append.mp hx with hx1 | hx2
      · match hi : a.intersect b with
        | some y =>
          rw [hi] at hx1
          simp at hx1
          subst hx1
          obtain ⟨ha1, ha2, hb1, hb2, hlt⟩ := intersect_some_bounds hi
          exact ⟨⟨a, by simp, ha1, ha2⟩, ⟨b, by simp, hb1, hb2⟩, hlt⟩
        | none =>
          rw [hi] at hx1
          simp at hx1
      · split at hx2
        · obtain ⟨⟨a', ha', hb'⟩, ⟨b', hbm, hbb⟩, hlt⟩ := ih1 (b :: t2) x hx2
          exact ⟨⟨a', by simp [ha'], hb'⟩, ⟨b', hbm, hbb⟩, hlt⟩
        · obtain ⟨⟨a', ha', hb'⟩, ⟨b', hbm, hbb⟩, hlt⟩ := ih2 x hx2
          exact ⟨⟨a', ha', hb'⟩, ⟨b', by simp [hbm], hbb⟩, hlt⟩

/-- `DateIntervalList.to_date_list`: the flattened (start, stop, start, stop, …)
view of the list. -/
def flattenDates : List DateInterval → List Date
  | [] => []
  | i :: r => i.start :: i.stop :: flattenDates r

/-- Re-pairing a flat date list into intervals (`DateIntervalList.__iter__` /
construction through `_dates`). -/
def pairUp : List Date → List DateInterval
  | a :: b :: rest => ⟨a, b⟩ :: pairUp rest
  | _ => []

/-- The leading check of `compliment`: `if dates[0].equals(dates[1])` pop both. -/
def dropHeadPairIfEqual (ds : List Date) : List Date :=
  match ds with
  | a :: b :: rest => if a = b then rest else ds
  | _ => ds

/-- The trailing check of `compliment`: `if dates and dates[-1].equals(dates[-2])`
pop both (on lists of length ≥ 2; the source indexes `dates[-2]` only when the list
is non-empty). -/
def dropLastPairIfEqual (ds : List Date) : List Date :=
  (dropHeadPairIfEqual ds.reverse).reverse

/-- First date of the flattened list (`self.__dates[0]`); 0 stands for the
`EmptyList` failure on an empty list, which no call site reaches. -/
def headStartD : List DateInterval → Date
  | [] => 0
  | i :: _ => i.start

/-- Last date of the flattened list (`self.__dates[-1]`). -/
def lastStopD : List DateInterval → Date
  | [] => 0
  | [i] => i.stop
  | _ :: r => lastStopD r

/-- `DateIntervalList.span`. -/
def listSpan (l : List DateInterval) : DateInterval :=
  DateInterval.make (headStartD l) (lastStopD l)

/-- `IntervalListOperations.compliment`. -/
def compliment (l : List DateInterval) (span : DateInterval) : List DateInterval :=
  let ds := (flattenDates l).filter
    (fun d => containedInDate d span.start span.stop true true)
  let ds2 := span.start :: ds ++ [span.stop]
  let ds3 := dropHeadPairIfEqual ds2
  let ds4 := dropLastPairIfEqual ds3
  let ds5 := if ds4.length % 2 ≠ 0 then ds4.dropLast else ds4
  pairUp ds5

/-- `IntervalListOperations.subtract`: intersect `list1` with the complement (over
`list1.span`) of `intersection(list1, list2)`. -/
def subtractLists (l1 l2 : List DateInterval) : List DateInterval :=
  let holes := intersectionLists l1 l2
  intersectionLists l1 (compliment holes (listSpan l1))

/-- `IntervalListOperations.union`: concatenate and rebuild with reduction. -/
def unionLists (l1 l2 : List DateInterval) : List DateInterval :=
  reduceIntervals (l1 ++ l2)

/-- Every interval produced by `subtract` is contained in a member of the minuend. -/
theorem subtractLists_subset (l1 l2 : List DateInterval) :
    ∀ x ∈ subtractLists l1 l2,
      (∃ a ∈ l1, a.start ≤ x.start ∧ x.stop ≤ a.stop) ∧ x.start < x.stop := by
  intro x hx
  obtain ⟨h1, _, hlt⟩ := interLoop_subset l1 _ x hx
  exact ⟨h1, hlt⟩

/-! ## Python error modelling -/

/-- Python exceptions raised by the modelled code paths. -/
inductive PyErr
  | typeError
deriving DecidableEq, Repr

/-- A query accepted by `DateIntervalList.contains`: a date or an interval. -/
inductive DIQuery
  | qdate (d : Date)
  | qivl (i : DateInterval)
deriving DecidableEq, Repr

/-- The slice `self.__dates[::2]` (every second date of the flattened tuple). -/
def everyOther {α : Type} : List α → List α
  | [] => []
  | [a] => [a]
  | a :: _ :: rest => a :: everyOther rest

/-- The loop of `DateIntervalList.contains`: `for (start, stop) in self.__dates[::2]`
tries to unpack each element of the slice as a pair; the elements are single
`AbsoluteDate`s, so the first iteration raises `TypeError` before the query is ever
examined.  With no iterations (empty list) the loop falls through to `return False`. -/
def containsLoop (slice : List Date) : Except PyErr Bool :=
  match slice with
  | [] => .ok false
  | _ :: _ => .error .typeError

/-- `DateIntervalList.contains` on the flattened date representation. -/
def listContains (dates : List Date) (other : DIQuery)
    (startInclusive : Bool := true) (stopInclusive : Bool := false) : Except PyErr Bool :=
  containsLoop (everyOther dates)

/-! ## Claim theorems: interval algebra -/

/-- **C1** (code_bug evidence). On the interval lists `A = [[0,10)]` and
`B = [[2,3),[5,8)]` (both valid, reduced `DateIntervalList`s) the source
`intersection` returns only `[[2,3)]`: after emitting `[2,3)` it advances the
pointer of `A` (because `(0,10) < (2,3)` lexicographically) and the loop ends, so
the instant `t = 6`, although covered by both inputs, is not covered by the result —
contradicting the claim that the result covers exactly the instants covered by both
lists. -/
theorem c1_intersection_drops_overlap :
    intersectionLists [⟨0, 10⟩] [⟨2, 3⟩, ⟨5, 8⟩] = [⟨2, 3⟩] ∧
    coveredBy [⟨0, 10⟩] 6 ∧ coveredBy [⟨2, 3⟩, ⟨5, 8⟩] 6 ∧
    ¬ coveredBy (intersectionLists [⟨0, 10⟩] [⟨2, 3⟩, ⟨5, 8⟩]) 6 := by
  have he : intersectionLists [(⟨0, 10⟩ : DateInterval)] [⟨2, 3⟩, ⟨5, 8⟩] = [⟨2, 3⟩] := by
    norm_num [intersectionLists, interLoop, DateInterval.intersect, DateInterval.pylt,
      compareTo, DateInterval.make]
  refine ⟨he, ?_, ?_, ?_⟩
  · norm_num [coveredBy]
  · norm_num [coveredBy]
  · rw [he]
    norm_num [coveredBy]

/-- **C5** (counterexample). With the default flags, `[1,2).overlaps([0,1))` returns
`True` although `a < d` fails (`a = d = 1`), and the reversed call
`[0,1).overlaps([1,2))` returns `False`: the claimed iff (`a < d ∧ c < b`) and the
claimed symmetry both fail on abutting intervals. -/
theorem c5_overlaps_counterexample :
    ((⟨1, 2⟩ : DateInterval).overlaps ⟨0, 1⟩ true false = true) ∧
    ¬ (((1 : ℚ) < 1) ∧ ((0 : ℚ) < 2)) ∧
    ((⟨0, 1⟩ : DateInterval).overlaps ⟨1, 2⟩ true false = false) := by
  refine ⟨?_, by norm_num, ?_⟩
  · rw [overlaps_default_eq]
    norm_num
  · rw [← Bool.not_eq_true, overlaps_default_eq]
    norm_num

/-- **C5** (amended). With the default flags (`startInclusive=True`,
`stopInclusive=False`), `[a,b).overlaps([c,d))` returns true iff `a ≤ d ∧ c < b`
(so the relation is not symmetric on abutting intervals), and a single-instant
containment query on `[a,b)` includes `a` and excludes `b`
(`contains(t)` iff `a ≤ t ∧ t < b`). -/
theorem c5_overlaps_amended (a b c d t : ℚ) :
    ((DateInterval.mk a b).overlaps ⟨c, d⟩ true false = true ↔ (a ≤ d ∧ c < b)) ∧
    ((DateInterval.mk a b).containsDate t true false = true ↔ (a ≤ t ∧ t < b)) := by
  constructor
  · exact overlaps_default_eq ⟨a, b⟩ ⟨c, d⟩
  · exact containedInDate_default_eq t a b

/-- **C6**. A `DateIntervalList` built from any iterable of (canonicalized)
intervals is sorted, pairwise non-overlapping and non-abutting (every interval stops
strictly before the next starts, adjacent or not), covers exactly the instants
covered by the input, and re-constructing a list from its own intervals returns an
equal list (idempotence). -/
theorem c6_reduce_invariants (l : List DateInterval) (hwf : ∀ i ∈ l, wfI i) :
    List.Chain' sepRel (reduceIntervals l) ∧
    List.Pairwise sepRel (reduceIntervals l) ∧
    List.Pairwise ivlLe (reduceIntervals l) ∧
    (∀ t, coveredBy (reduceIntervals l) t ↔ coveredBy l t) ∧
    reduceIntervals (reduceIntervals l) = reduceIntervals l := by
  obtain ⟨h1, h2, h3⟩ := reduceIntervals_main l hwf
  exact ⟨h2, chain_sep_pairwise_sep h1 h2, chain_sep_pairwise h1 h2, h3,
    reduceIntervals_idem l hwf⟩

/-- Witness for C6 at the concrete input `[[5,6), [0,2), [1,3)]`. -/
theorem c6_reduce_invariants_witness :
    (∀ i ∈ ([⟨5, 6⟩, ⟨0, 2⟩, ⟨1, 3⟩] : List DateInterval), wfI i) ∧
    (List.Chain' sepRel (reduceIntervals [⟨5, 6⟩, ⟨0, 2⟩, ⟨1, 3⟩]) ∧
     List.Pairwise sepRel (reduceIntervals [⟨5, 6⟩, ⟨0, 2⟩, ⟨1, 3⟩]) ∧
     List.Pairwise ivlLe (reduceIntervals [⟨5, 6⟩, ⟨0, 2⟩, ⟨1, 3⟩]) ∧
     (∀ t, coveredBy (reduceIntervals [⟨5, 6⟩, ⟨0, 2⟩, ⟨1, 3⟩]) t ↔
        coveredBy [⟨5, 6⟩, ⟨0, 2⟩, ⟨1, 3⟩] t) ∧
     reduceIntervals (reduceIntervals [⟨5, 6⟩, ⟨0, 2⟩, ⟨1, 3⟩]) =
       reduceIntervals [⟨5, 6⟩, ⟨0, 2⟩, ⟨1, 3⟩]) :=
  ⟨by norm_num [wfI], c6_reduce_invariants _ (by norm_num [wfI])⟩

/-- **C10**. On any non-empty `DateIntervalList` (flattened date tuple non-empty),
`contains` raises `TypeError` for every query — the loop header unpacks a single
boundary date as a (start, stop) pair — and only the empty list returns a boolean
(`False`). -/
theorem c10_contains_raises (dates : List Date) (q : DIQuery) (h : dates ≠ []) :
    listContains dates q = .error .typeError ∧ listContains [] q = .ok false := by
  constructor
  · match dates, h with
    | a :: rest, _ =>
      cases rest
      · rfl
      · rfl
  · rfl

/-- Witness for C10 at the one-interval list `[0,1)` and the query date 0. -/
theorem c10_contains_raises_witness :
    (([0, 1] : List Date) ≠ []) ∧
    (listContains [0, 1] (DIQuery.qdate 0) = .error .typeError ∧
     listContains [] (DIQuery.qdate 0) = .ok false) :=
  ⟨by simp, c10_contains_raises [0, 1] (DIQuery.qdate 0) (by simp)⟩

/-! ## DateIndexed (utils/core.py) -/

/-- `DateIndexed` specialised to one secondary key per bucket, the only shape the
scheduler uses (`"duty_cycle"` for limits, `"dur"` for totals): an ordered list of
(transition timestamp, optional stored value), plus the `default_item` returned when
a bucket holds no entry for the key. -/
structure DateIndexed where
  data : List (Date × Option ℚ)
  default_item : Option ℚ
deriving DecidableEq, Repr

/-- The key set of the constructor's date-keyed dict (duplicates collapse). -/
def dedupDates : List Date → List Date
  | [] => []
  | d :: r =>
    let rest := dedupDates r
    if d ∈ rest then rest else d :: rest

/-- `sorted(data.items())`. -/
def sortDates (l : List Date) : List Date :=
  (dedupDates l).insertionSort (· ≤ ·)

/-- `DateIndexed.__init__`: a sentinel at the Unix epoch (time 0) is prepended to
the provided transition dates; every bucket starts with an empty collection. -/
def mkDateIndexed (dates : List Date) (default_item : Option ℚ) : DateIndexed :=
  ⟨(sortDates (0 :: dates)).map (fun d => (d, none)), default_item⟩

/-- `DateIndexed._find`: scan the items in reverse for the greatest transition ≤ d;
`none` models the `IndexError` raised when `d` precedes every transition. -/
def DateIndexed.find? (m : DateIndexed) (d : Date) : Option (Date × Option ℚ) :=
  m.data.reverse.find? (fun item => decide (item.1 ≤ d))

/-- `DateIndexed.__getitem__` with a `(date, key)` tuple: find the bucket, return
its entry for the key, falling back to `default_item`; `none` models an uncaught
`KeyError`/`IndexError`. -/
def DateIndexed.get (m : DateIndexed) (t : Date) : Option ℚ :=
  match m.find? t with
  | some (_, some v) => some v
  | some (_, none) => m.default_item
  | none => none

/-- `DateIndexed.__setitem__` with a `(date, key)` tuple: find the bucket and assign
the entry in place (the unreachable `IndexError` path leaves the map unchanged). -/
def DateIndexed.set (m : DateIndexed) (t : Date) (v : ℚ) : DateIndexed :=
  match m.find? t with
  | some it => ⟨m.data.map (fun e => if e.1 = it.1 then (e.1, some v) else e),
      m.default_item⟩
  | none => m

/-- `DateIndexed.dates()`. -/
def DateIndexed.dates (m : DateIndexed) : List Date := m.data.map Prod.fst

/-! ## Duty-cycle budgets (scheduler/pushbroom.py) -/

/-- Modelled from the spec: `build_rev_constraint_dict` is imported by
`satscheduler/scheduler/pushbroom.py` from `satscheduler.scheduler.core` but is
missing from the copy of `scheduler/core.py` under src/.  Per the spec (a
`DateIndexed` rev map whose transition timestamps partition the horizon by orbital
revolution; missing secondary keys default to 0) it is the `DateIndexed` over the
satellite's revolution boundaries with dict buckets and `default_item = 0`. -/
def build_rev_constraint_dict (revs : List DateInterval) : DateIndexed :=
  mkDateIndexed (flattenDates revs) (some 0)

/-- `build_duty_cycle_limits` (events-generated branch) for one `(sat, payload)`
key: clamp the duty cycle into [0,1]; then, for each rev of the bounded ephemeris
span, assign `duty_cycle * rev.duration_secs` at the key
`mid = rev.start.shiftedBy(rev.duration_secs)` — the shift is by the **full**
duration, so `mid` is the rev's stop time. -/
def build_duty_cycle_limits (revs : List DateInterval) (duty_cycle : ℚ) : DateIndexed :=
  let duty := max 0 (min 1 duty_cycle)
  revs.foldl (fun limits rev =>
    let mid := rev.start + rev.duration_secs
    limits.set mid (duty * rev.duration_secs)) (build_rev_constraint_dict revs)

/-- **C2** (code_bug evidence). With revolutions [0,6000) and [6000,12000) and duty
cycle 1/20, the budget 300 = (1/20)·6000 of the first rev is assigned at the key
`rev.start.shiftedBy(rev.duration_secs) = 6000` — the rev's stop, not its
mid-timestamp 3000 — so a floor lookup at t = 100 inside the first rev returns the
default 0 instead of the claimed 300, while a lookup at t = 6100 inside the second
rev returns the first rev's budget. -/
theorem c2_duty_cycle_seed_misplaced :
    ((build_duty_cycle_limits [⟨0, 6000⟩, ⟨6000, 12000⟩] (1/20)).get 100 = some 0) ∧
    ((1 : ℚ)/20 * 6000 = 300) ∧ ((0 : ℚ) ≠ 300) ∧
    ((build_duty_cycle_limits [⟨0, 6000⟩, ⟨6000, 12000⟩] (1/20)).get 6100 = some 300) := by
  refine ⟨?_, by norm_num, by norm_num, ?_⟩ <;>
    norm_num [build_duty_cycle_limits, build_rev_constraint_dict, mkDateIndexed,
      sortDates, dedupDates, flattenDates, List.insertionSort, List.orderedInsert,
      DateIndexed.set, DateIndexed.get, DateIndexed.find?, DateInterval.duration_secs,
      List.find?]

/-! ## Solver results (scheduler/solver.py) -/

/-- `pywraplp.Solver` result codes. -/
def OPTIMAL : Int := 0

def FEASIBLE : Int := 1

def INFEASIBLE : Int := 2

def UNBOUNDED : Int := 3

def ABNORMAL : Int := 4

def MODEL_INVALID : Int := 5

def NOT_SOLVED : Int := 6

/-- `result_is_successful`: `OPTIMAL` and `FEASIBLE` (the latter with a logged
warning) are success; everything else is failure. -/
def result_is_successful (result : Int) : Bool :=
  if result = OPTIMAL then true
  else if result = FEASIBLE then true
  else false

/-- The `Result` disposition enum of scheduler/core.py. -/
inductive Result
  | SCHEDULED
  | ALREADY_SCHEDULED
  | NOT_DUE
  | EXCEEDED_PAYLOAD_DUTY_CYCLE
  | SOLVER_INFEASIBLE_SOLUTION
  | FAILED_QUALITY
  | FAILED_GEOMETRY
  | FAILED_SUN_GEOMETRY
  | NO_ACCESS
  | NO_DATA
deriving DecidableEq, Repr

/-- A `SolverInterval` together with the solution values of its two variables
(seconds on the epoch-relative timeline; `pywraplp` `solution_value()`s). -/
structure SolverIntervalSol where
  u : Date
  v : Date
  original : DateInterval
deriving DecidableEq, Repr

/-- `SolverInterval.get_solution`: `(False, None)` when the two solved instants are
equal, otherwise the interval `DateInterval(t0, t1)`.  (`_EPOCH + timedelta(...)` is
the identity on the rational timeline.) -/
def getSolution (s : SolverIntervalSol) : Option DateInterval :=
  if s.u = s.v then none else some (DateInterval.make s.u s.v)

/-- A `SolverAoi` after a solve: the aoi identity and its solver intervals. -/
structure SolverAoiSol where
  aoiId : ℕ
  intervals : List SolverIntervalSol
deriving DecidableEq, Repr

/-- `record_all`: record every interval of every solver aoi with the same result. -/
def record_all (solver_aois : List SolverAoiSol) (result : Result) :
    List (ℕ × Result) :=
  solver_aois.flatMap (fun sa => sa.intervals.map (fun _ => (sa.aoiId, result)))

/-- `record_and_consolidate_intervals`: per solver interval record `SCHEDULED` when
the solution is valid and `EXCEEDED_PAYLOAD_DUTY_CYCLE` otherwise; collect the valid
solved intervals and rebuild them as a `DateIntervalList`
(`as_dateintervallist`, modelled by the repository's reduced construction). -/
def record_and_consolidate_intervals (solver_aois : List SolverAoiSol) :
    List (ℕ × Result) × List DateInterval :=
  let records := solver_aois.flatMap (fun sa => sa.intervals.map (fun ivl =>
    match getSolution ivl with
    | some _ => (sa.aoiId, Result.SCHEDULED)
    | none => (sa.aoiId, Result.EXCEEDED_PAYLOAD_DUTY_CYCLE)))
  let intervals := solver_aois.flatMap (fun sa => sa.intervals.filterMap getSolution)
  (records, reduceIntervals intervals)

/-- `solve` (scheduler/scheduler.py): on success record and consolidate, on failure
record every aoi interval as `SOLVER_INFEASIBLE_SOLUTION` and return an empty
interval list; the run continues either way. -/
def solve (result : Int) (solver_aois : List SolverAoiSol) :
    Int × List (ℕ × Result) × List DateInterval :=
  if result_is_successful result then
    let rc := record_and_consolidate_intervals solver_aois
    (result, rc.1, rc.2)
  else
    (result, record_all solver_aois Result.SOLVER_INFEASIBLE_SOLUTION, [])

/-! ## Batch driver state (scheduler/pushbroom.py) -/

/-- The body of the rev loop in the success branch of `schedule_batch`:
`i = ivl.intersect(rev)`; when non-empty, `mid = i.start_dt + i.duration / 2` and
`totals[mid, "dur"] = totals[mid, "dur"] + i.duration` (a floor get then a floor
set). -/
def totals_bump (ivl : DateInterval) (totals : DateIndexed) (rev : DateInterval) :
    DateIndexed :=
  match ivl.intersect rev with
  | some i =>
    let mid := i.start + i.duration_secs / 2
    match totals.get mid with
    | some cur => totals.set mid (cur + i.duration_secs)
    | none => totals
  | none => totals

/-- `compute_totals`: the accumulation inside the success branch of
`schedule_batch` — `totals = DateIndexed(dates=duration_limit.dates(), value_type=
dict, default_item=timedelta())`; for each scheduled interval and each rev, bump
the bucket found by the intersection piece's mid-instant. -/
def compute_totals (dates : List Date) (revs intervals : List DateInterval) :
    DateIndexed :=
  intervals.foldl (fun totals ivl => revs.foldl (totals_bump ivl) totals)
    (mkDateIndexed dates (some 0))

/-- The body of the final debit loop: `mid = rev.start_dt + rev.duration / 2`;
`duration_limit[mid, "duty_cycle"] -= totals[mid, "dur"]`. -/
def debit_step (totals limits : DateIndexed) (rev : DateInterval) : DateIndexed :=
  let mid := rev.start + rev.duration_secs / 2
  match limits.get mid, totals.get mid with
  | some cur, some tot => limits.set mid (cur - tot)
  | _, _ => limits

/-- The final debit loop of the success branch. -/
def apply_debits (limits totals : DateIndexed) (revs : List DateInterval) :
    DateIndexed :=
  revs.foldl (debit_step totals) limits

/-- The per-key tail of `schedule_batch`: solve; on success debit the budgets and
append (`payload_intervals[k] + intervals`) the new intervals to the committed
payload intervals; on failure leave both unchanged. -/
def schedule_batch_step (result : Int) (limits : DateIndexed)
    (committed : List DateInterval) (revs : List DateInterval)
    (solver_aois : List SolverAoiSol) :
    DateIndexed × List DateInterval × List (ℕ × Result) :=
  let s := solve result solver_aois
  if result_is_successful result then
    let totals := compute_totals limits.dates revs s.2.2
    (apply_debits limits totals revs, unionLists committed s.2.2, s.2.1)
  else
    (limits, committed, s.2.1)

theorem mem_record_all {solver_aois : List SolverAoiSol} {sa : SolverAoiSol}
    {res : Result} (hsa : sa ∈ solver_aois) (hne : sa.intervals ≠ []) :
    (sa.aoiId, res) ∈ record_all solver_aois res := by
  unfold record_all
  rw [List.mem_flatMap]
  refine ⟨sa, hsa, ?_⟩
  rw [List.mem_map]
  cases hI : sa.intervals with
  | nil => exact absurd hI hne
  | cons x rest => exact ⟨x, by simp [hI], rfl⟩

/-- **C7** (amended). `OPTIMAL` and `FEASIBLE` are treated as success; for any other
solver result the batch records `SOLVER_INFEASIBLE_SOLUTION` for every solver
interval of every aoi in the batch (an aoi whose residual interval list is empty
contributes no record), the batch's interval list is empty, and the run continues:
the next batch proceeds with the same committed intervals and the same budgets. -/
theorem c7_solver_failure_handling (result : Int) (limits : DateIndexed)
    (committed revs : List DateInterval) (solver_aois : List SolverAoiSol)
    (h : result ≠ OPTIMAL ∧ result ≠ FEASIBLE) :
    result_is_successful OPTIMAL = true ∧ result_is_successful FEASIBLE = true ∧
    result_is_successful result = false ∧
    (∀ sa ∈ solver_aois, sa.intervals ≠ [] →
      (sa.aoiId, Result.SOLVER_INFEASIBLE_SOLUTION) ∈ (solve result solver_aois).2.1) ∧
    (solve result solver_aois).2.2 = [] ∧
    schedule_batch_step result limits committed revs solver_aois =
      (limits, committed, record_all solver_aois Result.SOLVER_INFEASIBLE_SOLUTION) := by
  have hfail : result_is_successful result = false := by
    unfold result_is_successful
    rw [if_neg h.1, if_neg h.2]
  have hsolve : solve result solver_aois =
      (result, record_all solver_aois Result.SOLVER_INFEASIBLE_SOLUTION, []) := by
    unfold solve
    rw [hfail]
    simp
  refine ⟨by decide, by decide, hfail, ?_, ?_, ?_⟩
  · intro sa hsa hne
    rw [hsolve]
    exact mem_record_all hsa hne
  · rw [hsolve]
  · unfold schedule_batch_step
    rw [hfail]
    simp [hsolve]

/-- Witness for C7 with solver result `INFEASIBLE = 2` and a one-aoi batch. -/
theorem c7_solver_failure_handling_witness :
    (((2 : Int) ≠ OPTIMAL) ∧ ((2 : Int) ≠ FEASIBLE)) ∧
    (result_is_successful OPTIMAL = true ∧ result_is_successful FEASIBLE = true ∧
     result_is_successful 2 = false ∧
     (∀ sa ∈ [(⟨0, [⟨1, 2, ⟨1, 2⟩⟩]⟩ : SolverAoiSol)], sa.intervals ≠ [] →
       (sa.aoiId, Result.SOLVER_INFEASIBLE_SOLUTION) ∈
         (solve 2 [⟨0, [⟨1, 2, ⟨1, 2⟩⟩]⟩]).2.1) ∧
     (solve 2 [⟨0, [⟨1, 2, ⟨1, 2⟩⟩]⟩]).2.2 = [] ∧
     schedule_batch_step 2 (mkDateIndexed [] (some 0)) [] [] [⟨0, [⟨1, 2, ⟨1, 2⟩⟩]⟩] =
       (mkDateIndexed [] (some 0), [],
        record_all [⟨0, [⟨1, 2, ⟨1, 2⟩⟩]⟩] Result.SOLVER_INFEASIBLE_SOLUTION)) :=
  ⟨⟨by decide, by decide⟩,
   c7_solver_failure_handling 2 (mkDateIndexed [] (some 0)) [] []
     [⟨0, [⟨1, 2, ⟨1, 2⟩⟩]⟩] ⟨by decide, by decide⟩⟩

/-- **C7** (counterexample). A failed solve (result `INFEASIBLE = 2`) over a batch
holding aoi 0 with one solver interval and aoi 1 with none records
`SOLVER_INFEASIBLE_SOLUTION` only for aoi 0: aoi 1 is in the batch but never
recorded, refuting "every aoi in that batch is recorded". -/
theorem c7_empty_aoi_unrecorded :
    (solve 2 [⟨0, [⟨1, 2, ⟨1, 2⟩⟩]⟩, ⟨1, []⟩]).2.1 =
      [(0, Result.SOLVER_INFEASIBLE_SOLUTION)] ∧
    (1, Result.SOLVER_INFEASIBLE_SOLUTION) ∉
      (solve 2 [⟨0, [⟨1, 2, ⟨1, 2⟩⟩]⟩, ⟨1, []⟩]).2.1 := by
  have h : (solve 2 [⟨0, [⟨1, 2, ⟨1, 2⟩⟩]⟩, ⟨1, []⟩]).2.1 =
      [(0, Result.SOLVER_INFEASIBLE_SOLUTION)] := by
    norm_num [solve, result_is_successful, OPTIMAL, FEASIBLE, record_all, List.flatMap]
  refine ⟨h, ?_⟩
  rw [h]
  simp

/-! ## C4: committed intervals stay within access intervals -/

/-- One solver interval solution of a batch, tagged with the index of its aoi. -/
structure BatchSol where
  aoiIdx : ℕ
  u : Date
  v : Date
deriving DecidableEq, Repr

/-- `BatchData.paoi_modifer`: when the committed payload list is non-empty, subtract
it from the aoi's access intervals; otherwise the aoi is unchanged. -/
def residualIntervals (access committed : List DateInterval) : List DateInterval :=
  if committed = [] then access else subtractLists access committed

/-- The constraints `SolverInterval.create` places on the two variables of one
residual access interval — both bounded into `[t0, t1]` and `var0 ≤ var1` — which
any solution accepted by a successful solve satisfies. -/
def SolOk (accesses : ℕ → List DateInterval) (committed : List DateInterval)
    (s : BatchSol) : Prop :=
  s.u ≤ s.v ∧ ∃ ivl ∈ residualIntervals (accesses s.aoiIdx) committed,
    ivl.start ≤ s.u ∧ s.v ≤ ivl.stop

/-- A successful batch's commit for one key: keep the non-degenerate solutions
(`get_solution`), rebuild them as a `DateIntervalList` (`as_dateintervallist`), and
union into the committed payload intervals (`payload_intervals[k] + intervals`). -/
def commitBatch (committed : List DateInterval) (b : List BatchSol) :
    List DateInterval :=
  unionLists committed
    (reduceIntervals (b.filterMap (fun s =>
      if s.u = s.v then none else some (DateInterval.make s.u s.v))))

/-- Committed-interval states reachable by the batch driver for one (sat, payload)
key: initially empty (`payload_intervals = {k: DateIntervalList()}`); each
successful batch commits bound-respecting solutions; a failed batch leaves the
state unchanged (contributing no new state). -/
inductive ReachableCommitted (accesses : ℕ → List DateInterval) :
    List DateInterval → Prop
  | init : ReachableCommitted accesses []
  | batch (C : List DateInterval) (b : List BatchSol)
      (hC : ReachableCommitted accesses C)
      (hok : ∀ s ∈ b, SolOk accesses C s) :
      ReachableCommitted accesses (commitBatch C b)

theorem reachable_invariant (accesses : ℕ → List DateInterval)
    (hacc : ∀ k, ∀ i ∈ accesses k, wfI i) :
    ∀ C, ReachableCommitted accesses C →
      (∀ i ∈ C, wfI i) ∧ List.Chain' sepRel C ∧
      (∀ t, coveredBy C t → ∃ k, coveredBy (accesses k) t) := by
  intro C h
  induction h with
  | init =>
    refine ⟨by simp, List.chain'_nil, ?_⟩
    intro t ht
    exact absurd ht (coveredBy_nil t)
  | batch C b hC hok ih =>
    obtain ⟨ihwf, ihchain, ihcov⟩ := ih
    have hsolswf : ∀ i ∈ b.filterMap (fun s =>
        if s.u = s.v then none else some (DateInterval.make s.u s.v)), wfI i := by
      intro i hi
      rw [List.mem_filterMap] at hi
      obtain ⟨s, _, hfs⟩ := hi
      split at hfs
      · exact absurd hfs (by simp)
      · injection hfs with hfs
        exact hfs ▸ wfI_make _ _
    have hredwf := (reduceIntervals_main _ hsolswf).1
    have hallwf : ∀ i ∈ C ++ reduceIntervals (b.filterMap (fun s =>
        if s.u = s.v then none else some (DateInterval.make s.u s.v))), wfI i := by
      intro i hi
      rcases List.mem_append.mp hi with h1 | h1
      · exact ihwf i h1
      · exact hredwf i h1
    have hcb : commitBatch C b = reduceIntervals (C ++ reduceIntervals
        (b.filterMap (fun s =>
          if s.u = s.v then none else some (DateInterval.make s.u s.v)))) := rfl
    obtain ⟨hwf2, hchain2, hcov2⟩ := reduceIntervals_main _ hallwf
    rw [hcb]
    refine ⟨hwf2, hchain2, ?_⟩
    intro t ht
    have ht2 := (hcov2 t).mp ht
    rcases coveredBy_append.mp ht2 with h1 | h1
    · exact ihcov t h1
    · have h2 := ((reduceIntervals_main _ hsolswf).2.2 t).mp h1
      obtain ⟨i, hi, hit1, hit2⟩ := h2
      rw [List.mem_filterMap] at hi
      obtain ⟨s, hsb, hfs⟩ := hi
      obtain ⟨huv, ivl, hivl, hb1, hb2⟩ := hok s hsb
      split at hfs
      · exact absurd hfs (by simp)
      · injection hfs with hfs
        rw [make_of_le huv] at hfs
        subst hfs
        simp only at hit1 hit2
        have hcovivl : ivl.start ≤ t ∧ t < ivl.stop :=
          ⟨le_trans hb1 hit1, lt_of_lt_of_le hit2 hb2⟩
        unfold residualIntervals at hivl
        split at hivl
        · exact ⟨s.aoiIdx, ivl, hivl, hcovivl⟩
        · obtain ⟨⟨a, ham, ha1, ha2⟩, _⟩ := subtractLists_subset _ _ ivl hivl
          exact ⟨s.aoiIdx, a, ham,
            le_trans ha1 hcovivl.1, lt_of_lt_of_le hcovivl.2 ha2⟩

/-- **C4**. For every payload key, any committed interval list the batch driver can
reach — in particular the final one — is pairwise non-overlapping (strictly
separated), and every instant it covers is covered by one of that payload's input
access interval lists: each scheduled interval is a (possibly shortened)
sub-interval of an original access interval. -/
theorem c4_committed_within_access (accesses : ℕ → List DateInterval)
    (hacc : ∀ k, ∀ i ∈ accesses k, wfI i) (C : List DateInterval)
    (h : ReachableCommitted accesses C) :
    List.Pairwise sepRel C ∧
    (∀ t, coveredBy C t → ∃ k, coveredBy (accesses k) t) := by
  obtain ⟨hwf, hchain, hcov⟩ := reachable_invariant accesses hacc C h
  exact ⟨chain_sep_pairwise_sep hwf hchain, hcov⟩

/-- Witness for C4: one aoi with access `[0,10)`, one batch scheduling `[2,5)`. -/
theorem c4_committed_within_access_witness :
    (∀ k : ℕ, ∀ i ∈ [(⟨0, 10⟩ : DateInterval)], wfI i) ∧
    ReachableCommitted (fun _ => [⟨0, 10⟩]) (commitBatch [] [⟨0, 2, 5⟩]) ∧
    (List.Pairwise sepRel (commitBatch [] [⟨0, 2, 5⟩]) ∧
     (∀ t, coveredBy (commitBatch [] [⟨0, 2, 5⟩]) t →
       ∃ k : ℕ, coveredBy ((fun _ => [(⟨0, 10⟩ : DateInterval)]) k) t)) := by
  have hacc : ∀ k : ℕ, ∀ i ∈ [(⟨0, 10⟩ : DateInterval)], wfI i := by
    intro k i hi
    rw [List.mem_singleton] at hi
    rw [hi]
    norm_num [wfI]
  have hok : ∀ s ∈ [(⟨0, 2, 5⟩ : BatchSol)], SolOk (fun _ => [⟨0, 10⟩]) [] s := by
    intro s hs
    rw [List.mem_singleton] at hs
    subst hs
    refine ⟨by norm_num, ⟨0, 10⟩, ?_, by norm_num, by norm_num⟩
    norm_num [residualIntervals]
  have hreach : ReachableCommitted (fun _ => [⟨0, 10⟩]) (commitBatch [] [⟨0, 2, 5⟩]) :=
    ReachableCommitted.batch [] [⟨0, 2, 5⟩] ReachableCommitted.init hok
  exact ⟨hacc, hreach,
    c4_committed_within_access (fun _ => [⟨0, 10⟩]) hacc _ hreach⟩

/-! ## C3: rev partition, overlap lengths, and the bucket map view -/

/-- Modelled from the spec: `SatelliteModel.construct_rev_intervals` is called by
scheduler/pushbroom.py but is not present in the copy of models/satellite.py under
src/.  Per the spec, it partitions the bounded span into revolutions delimited by
adjacent event boundaries, the partial first and last revs closed at the span
endpoints; the boundary list here already includes the span endpoints. -/
def zipConsecutive : List Date → List DateInterval
  | a :: c :: rest => ⟨a, c⟩ :: zipConsecutive (c :: rest)
  | _ => []

/-- Length of the overlap of two intervals (0 when disjoint). -/
def overlapLen (i j : DateInterval) : ℚ :=
  max 0 (min i.stop j.stop - max i.start j.start)

/-- Total overlap of a list of intervals with one rev. -/
def totalOverlap (intervals : List DateInterval) (rev : DateInterval) : ℚ :=
  (intervals.map (fun i => overlapLen i rev)).sum

theorem intersect_some_overlapLen {i j x : DateInterval} (h : i.intersect j = some x) :
    x.start = max i.start j.start ∧ x.stop = min i.stop j.stop ∧
    x.duration_secs = overlapLen i j ∧ x.start < x.stop := by
  rw [intersect_eq] at h
  split at h
  · rename_i hc
    injection h with h
    subst h
    refine ⟨rfl, rfl, ?_, hc⟩
    show i.stop ⊓ j.stop - i.start ⊔ j.start = max 0 (i.stop ⊓ j.stop - i.start ⊔ j.start)
    have h0 : (0 : ℚ) ≤ i.stop ⊓ j.stop - i.start ⊔ j.start := by linarith
    exact (max_eq_right h0).symm
  · exact absurd h (by simp)

theorem intersect_none_overlapLen {i j : DateInterval} (h : i.intersect j = none) :
    overlapLen i j = 0 := by
  rw [intersect_eq] at h
  split at h
  · exact absurd h (by simp)
  · rename_i hc
    unfold overlapLen
    have h0 : i.stop ⊓ j.stop - i.start ⊔ j.start ≤ 0 := by
      have := le_of_not_lt hc
      linarith
    exact max_eq_left h0

/-- A `DateIndexed` whose buckets are exactly the keys `K` with entries `f` and
default 0 — the shape of the duty-cycle-limit and totals maps. -/
def kmap (K : List Date) (f : Date → Option ℚ) : DateIndexed :=
  ⟨K.map (fun k => (k, f k)), some 0⟩

/-- The numeric value a floor get observes at a bucket: the entry, or the default 0. -/
def gV (f : Date → Option ℚ) (k : Date) : ℚ := (f k).getD 0

theorem kmap_dates (K : List Date) (f : Date → Option ℚ) : (kmap K f).dates = K := by
  unfold kmap DateIndexed.dates
  rw [List.map_map]
  have hid : (Prod.fst ∘ fun k : Date => (k, f k)) = id := rfl
  rw [hid, List.map_id]

theorem kmap_find_at (f : Date → Option ℚ) {P S : List Date} {k0 t : Date}
    (hk : k0 ≤ t) (hS : ∀ s ∈ S, t < s) :
    (kmap (P ++ k0 :: S) f).find? t = some (k0, f k0) := by
  unfold kmap DateIndexed.find?
  simp only [List.map_append, List.map_cons, List.reverse_append, List.reverse_cons]
  rw [List.find?_append]
  have h1 : ((S.map (fun k => (k, f k))).reverse ++ [(k0, f k0)]).find?
      (fun item => decide (item.1 ≤ t)) = some (k0, f k0) := by
    rw [List.find?_append]
    have hnone : ((S.map (fun k => (k, f k))).reverse).find?
        (fun item => decide (item.1 ≤ t)) = none := by
      rw [List.find?_eq_none]
      intro x hx
      rw [List.mem_reverse, List.mem_map] at hx
      obtain ⟨s, hs, hxs⟩ := hx
      subst hxs
      simp only [decide_eq_true_eq]
      exact not_le_of_lt (hS s hs)
    rw [hnone]
    simp [hk]
  rw [h1]
  simp

theorem kmap_get_at (f : Date → Option ℚ) {P S : List Date} {k0 t : Date}
    (hk : k0 ≤ t) (hS : ∀ s ∈ S, t < s) :
    (kmap (P ++ k0 :: S) f).get t = some (gV f k0) := by
  unfold DateIndexed.get
  rw [kmap_find_at f hk hS]
  unfold gV
  cases f k0 <;> rfl

theorem kmap_set_at (f : Date → Option ℚ) {P S : List Date} {k0 t : Date}
    (hk : k0 ≤ t) (hS : ∀ s ∈ S, t < s) (v : ℚ) :
    (kmap (P ++ k0 :: S) f).set t v =
      kmap (P ++ k0 :: S) (fun k => if k = k0 then some v else f k) := by
  unfold DateIndexed.set
  rw [kmap_find_at f hk hS]
  unfold kmap
  simp only [DateIndexed.mk.injEq, and_true]
  rw [List.map_map]
  apply List.map_congr_left
  intro a _
  simp only [Function.comp_apply]
  by_cases ha : a = k0
  · simp [ha]
  · simp [ha]

theorem zipConsecutive_mem : ∀ {b : List Date} {r : DateInterval},
    r ∈ zipConsecutive b → ∃ P S, b = P ++ r.start :: r.stop :: S := by
  intro b
  induction b with
  | nil => intro r h; simp [zipConsecutive] at h
  | cons a rest ih =>
    intro r h
    match rest, h with
    | [], h => simp [zipConsecutive] at h
    | c :: rest', h =>
      rw [zipConsecutive] at h
      rcases List.mem_cons.mp h with h1 | h1
      · subst h1
        exact ⟨[], rest', rfl⟩
      · obtain ⟨P', S', hd⟩ := ih h1
        exact ⟨a :: P', S', by rw [List.cons_append, ← hd]⟩

theorem mem_zip_start_mem : ∀ {b : List Date} {r : DateInterval},
    r ∈ zipConsecutive b → r.start ∈ b := by
  intro b r h
  obtain ⟨P, S, hd⟩ := zipConsecutive_mem h
  rw [hd]
  simp

theorem zip_starts_lt : ∀ {b : List Date}, List.Pairwise (· < ·) b →
    List.Pairwise (fun r s : DateInterval => r.start < s.start) (zipConsecutive b) := by
  intro b
  induction b with
  | nil => intro _; simp [zipConsecutive]
  | cons a rest ih =>
    intro hp
    match rest with
    | [] => simp [zipConsecutive]
    | c :: rest' =>
      rw [zipConsecutive, List.pairwise_cons]
      constructor
      · intro s hs
        exact (List.pairwise_cons.mp hp).1 s.start (mem_zip_start_mem hs)
      · exact ih (List.pairwise_cons.mp hp).2

/-- The bucket-location facts for an instant inside a rev of the partition: the key
list decomposes around the rev's start key, every later key is past the instant. -/
theorem rev_floor_facts {b : List Date} (hch : List.Pairwise (· < ·) (0 :: b))
    {r : DateInterval} (hr : r ∈ zipConsecutive b) {t : Date}
    (ht1 : r.start ≤ t) (ht2 : t < r.stop) :
    ∃ P S, (0 : Date) :: b = P ++ r.start :: S ∧ (∀ s ∈ S, t < s) := by
  obtain ⟨P', S', hd⟩ := zipConsecutive_mem hr
  refine ⟨0 :: P', r.stop :: S', by rw [hd]; simp, ?_⟩
  have hsub : List.Pairwise (· < ·) (r.start :: r.stop :: S') := by
    have : (r.start :: r.stop :: S').Sublist ((0 : Date) :: b) := by
      rw [hd, show (0 : Date) :: (P' ++ r.start :: r.stop :: S') =
        ((0 : Date) :: P') ++ r.start :: r.stop :: S' by simp]
      exact List.sublist_append_right _ _
    exact List.Pairwise.sublist this hch
  intro s hs
  rcases List.mem_cons.mp hs with h1 | h1
  · exact h1 ▸ ht2
  · have : r.stop < s :=
      (List.pairwise_cons.mp (List.pairwise_cons.mp hsub).2).1 s h1
    exact lt_trans ht2 this

theorem rev_pos {b : List Date} (hch : List.Pairwise (· < ·) (0 :: b))
    {r : DateInterval} (hr : r ∈ zipConsecutive b) : r.start < r.stop := by
  obtain ⟨P', S', hd⟩ := zipConsecutive_mem hr
  have hsub : List.Pairwise (· < ·) (r.start :: r.stop :: S') := by
    have : (r.start :: r.stop :: S').Sublist ((0 : Date) :: b) := by
      rw [hd, show (0 : Date) :: (P' ++ r.start :: r.stop :: S') =
        ((0 : Date) :: P') ++ r.start :: r.stop :: S' by simp]
      exact List.sublist_append_right _ _
    exact List.Pairwise.sublist this hch
  exact (List.pairwise_cons.mp hsub).1 r.stop (by simp)

theorem dedupDates_of_nodup : ∀ {l : List Date}, l.Nodup → dedupDates l = l := by
  intro l
  induction l with
  | nil => intro _; rfl
  | cons d rest ih =>
    intro hn
    rw [List.nodup_cons] at hn
    unfold dedupDates
    rw [ih hn.2]
    simp [hn.1]

theorem sortDates_sentinel {b : List Date} (hch : List.Pairwise (· < ·) (0 :: b)) :
    sortDates (0 :: 0 :: b) = 0 :: b := by
  have hnd : ((0 : Date) :: b).Nodup := List.Pairwise.imp ne_of_lt hch
  have h1 : dedupDates ((0 : Date) :: 0 :: b) = 0 :: b := by
    unfold dedupDates
    rw [dedupDates_of_nodup hnd]
    simp
  unfold sortDates
  rw [h1]
  exact List.Sorted.insertionSort_eq (List.Pairwise.imp le_of_lt hch)

theorem mkDateIndexed_kmap {b : List Date} (hch : List.Pairwise (· < ·) (0 :: b)) :
    mkDateIndexed (0 :: b) (some 0) = kmap (0 :: b) (fun _ => none) := by
  unfold mkDateIndexed kmap
  rw [sortDates_sentinel hch]

theorem totals_bump_kmap {b : List Date} (hch : List.Pairwise (· < ·) (0 :: b))
    (ivl : DateInterval) {r : DateInterval} (hr : r ∈ zipConsecutive b)
    (f : Date → Option ℚ) :
    ∃ f', totals_bump ivl (kmap (0 :: b) f) r = kmap (0 :: b) f' ∧
      gV f' r.start = gV f r.start + overlapLen ivl r ∧
      ∀ k, k ≠ r.start → f' k = f k := by
  cases hi : ivl.intersect r with
  | none =>
    refine ⟨f, ?_, ?_, fun _ _ => rfl⟩
    · unfold totals_bump
      rw [hi]
    · rw [intersect_none_overlapLen hi]
      ring
  | some i =>
    obtain ⟨his, hie, hid, hilt⟩ := intersect_some_overlapLen hi
    have hdpos : 0 < i.duration_secs := by
      unfold DateInterval.duration_secs
      linarith
    have hm1 : r.start ≤ i.start + i.duration_secs / 2 := by
      have h1 : r.start ≤ i.start := his ▸ le_max_right _ _
      linarith
    have hm2 : i.start + i.duration_secs / 2 < r.stop := by
      have h1 : i.stop ≤ r.stop := hie ▸ min_le_right _ _
      unfold DateInterval.duration_secs at *
      linarith
    obtain ⟨P, S, hK, hS⟩ := rev_floor_facts hch hr hm1 hm2
    have hget : (kmap ((0 : Date) :: b) f).get (i.start + i.duration_secs / 2) =
        some (gV f r.start) := by
      rw [hK]
      exact kmap_get_at f hm1 hS
    have hset : (kmap ((0 : Date) :: b) f).set (i.start + i.duration_secs / 2)
        (gV f r.start + i.duration_secs) =
        kmap ((0 : Date) :: b)
          (fun k => if k = r.start then some (gV f r.start + i.duration_secs) else f k) := by
      rw [hK]
      exact kmap_set_at f hm1 hS _
    refine ⟨fun k => if k = r.start then some (gV f r.start + i.duration_secs) else f k,
      ?_, ?_, ?_⟩
    · unfold totals_bump
      rw [hi]
      simp only [hget]
      exact hset
    · unfold gV
      simp only [if_pos rfl, Option.getD_some]
      rw [hid]
      rfl
    · intro k hk
      simp [hk]

theorem totals_inner_fold {b : List Date} (hch : List.Pairwise (· < ·) (0 :: b))
    (ivl : DateInterval) :
    ∀ (revs : List DateInterval), (∀ r ∈ revs, r ∈ zipConsecutive b) →
    ∀ f : Date → Option ℚ,
    ∃ f', revs.foldl (totals_bump ivl) (kmap (0 :: b) f) = kmap (0 :: b) f' ∧
      ∀ k0, gV f' k0 = gV f k0 +
        ((revs.map (fun r => if r.start = k0 then overlapLen ivl r else 0)).sum) := by
  intro revs
  induction revs with
  | nil =>
    intro _ f
    exact ⟨f, rfl, by simp⟩
  | cons r rest ih =>
    intro hrevs f
    obtain ⟨f1, hstep, hg1, hother⟩ := totals_bump_kmap hch ivl (hrevs r (by simp)) f
    obtain ⟨f2, hfold, hsum⟩ := ih (fun x hx => hrevs x (by simp [hx])) f1
    refine ⟨f2, ?_, ?_⟩
    · rw [List.foldl_cons, hstep, hfold]
    · intro k0
      rw [hsum k0, List.map_cons, List.sum_cons]
      by_cases hk : r.start = k0
      · subst hk
        rw [hg1]
        simp only [eq_self_iff_true, if_true]
        ring
      · have : gV f1 k0 = gV f k0 := by
          unfold gV
          rw [hother k0 (fun hc => hk hc.symm)]
        rw [this, if_neg hk]
        ring

theorem sum_if_start {q : DateInterval → ℚ} :
    ∀ {revs : List DateInterval},
    List.Pairwise (fun r s : DateInterval => r.start < s.start) revs →
    ∀ {rt : DateInterval}, rt ∈ revs →
    (revs.map (fun r => if r.start = rt.start then q r else 0)).sum = q rt := by
  intro revs
  induction revs with
  | nil => intro _ rt hm; cases hm
  | cons r0 rest ih =>
    intro hp rt hm
    have h0 := (List.pairwise_cons.mp hp).1
    rw [List.map_cons, List.sum_cons]
    rcases List.mem_cons.mp hm with h1 | h1
    · subst h1
      rw [if_pos rfl]
      have hz : (rest.map (fun r => if r.start = rt.start then q r else 0)).sum = 0 := by
        apply List.sum_eq_zero
        intro x hx
        rw [List.mem_map] at hx
        obtain ⟨r, hr, hxr⟩ := hx
        rw [if_neg (ne_of_gt (h0 r hr))] at hxr
        exact hxr.symm
      rw [hz]
      ring
    · rw [if_neg (ne_of_lt (h0 rt h1)), ih (List.pairwise_cons.mp hp).2 h1]
      ring

theorem compute_totals_kmap {b : List Date} (hch : List.Pairwise (· < ·) (0 :: b))
    (intervals : List DateInterval) :
    ∃ fT, compute_totals (0 :: b) (zipConsecutive b) intervals = kmap (0 :: b) fT ∧
      ∀ r ∈ zipConsecutive b, gV fT r.start = totalOverlap intervals r := by
  have hstarts : List.Pairwise (fun r s : DateInterval => r.start < s.start)
      (zipConsecutive b) := zip_starts_lt (List.Pairwise.of_cons hch)
  have haux : ∀ (ivls : List DateInterval) (f : Date → Option ℚ),
      ∃ fT, ivls.foldl (fun totals ivl => (zipConsecutive b).foldl (totals_bump ivl)
          totals) (kmap (0 :: b) f) = kmap (0 :: b) fT ∧
        ∀ r ∈ zipConsecutive b, gV fT r.start = gV f r.start + totalOverlap ivls r := by
    intro ivls
    induction ivls with
    | nil =>
      intro f
      refine ⟨f, rfl, ?_⟩
      intro r _
      unfold totalOverlap
      simp
    | cons ivl rest ih =>
      intro f
      obtain ⟨f1, hstep, hg1⟩ :=
        totals_inner_fold hch ivl (zipConsecutive b) (fun _ hx => hx) f
      obtain ⟨fT, hfold, hsum⟩ := ih f1
      refine ⟨fT, ?_, ?_⟩
      · rw [List.foldl_cons, hstep, hfold]
      · intro r hrm
        rw [hsum r hrm, hg1 r.start, sum_if_start hstarts hrm]
        unfold totalOverlap
        rw [List.map_cons, List.sum_cons]
        ring
  obtain ⟨fT, hfold, hsum⟩ := haux intervals (fun _ => none)
  refine ⟨fT, ?_, ?_⟩
  · unfold compute_totals
    rw [mkDateIndexed_kmap hch]
    exact hfold
  · intro r hrm
    rw [hsum r hrm]
    unfold gV
    simp

theorem debit_step_kmap {b : List Date} (hch : List.Pairwise (· < ·) (0 :: b))
    (fT : Date → Option ℚ) {r : DateInterval} (hr : r ∈ zipConsecutive b)
    (g : Date → Option ℚ) :
    ∃ g', debit_step (kmap (0 :: b) fT) (kmap (0 :: b) g) r = kmap (0 :: b) g' ∧
      gV g' r.start = gV g r.start - gV fT r.start ∧
      ∀ k, k ≠ r.start → g' k = g k := by
  have hpos := rev_pos hch hr
  have hm1 : r.start ≤ r.start + r.duration_secs / 2 := by
    unfold DateInterval.duration_secs
    linarith
  have hm2 : r.start + r.duration_secs / 2 < r.stop := by
    unfold DateInterval.duration_secs
    linarith
  obtain ⟨P, S, hK, hS⟩ := rev_floor_facts hch hr hm1 hm2
  have hgetg : (kmap ((0 : Date) :: b) g).get (r.start + r.duration_secs / 2) =
      some (gV g r.start) := by
    rw [hK]
    exact kmap_get_at g hm1 hS
  have hgetf : (kmap ((0 : Date) :: b) fT).get (r.start + r.duration_secs / 2) =
      some (gV fT r.start) := by
    rw [hK]
    exact kmap_get_at fT hm1 hS
  have hset : (kmap ((0 : Date) :: b) g).set (r.start + r.duration_secs / 2)
      (gV g r.start - gV fT r.start) =
      kmap ((0 : Date) :: b)
        (fun k => if k = r.start then some (gV g r.start - gV fT r.start) else g k) := by
    rw [hK]
    exact kmap_set_at g hm1 hS _
  refine ⟨fun k => if k = r.start then some (gV g r.start - gV fT r.start) else g k,
    ?_, ?_, ?_⟩
  · unfold debit_step
    simp only [hgetg, hgetf]
    exact hset
  · unfold gV
    simp
  · intro k hk
    simp [hk]

theorem apply_debits_kmap {b : List Date} (hch : List.Pairwise (· < ·) (0 :: b))
    (fT : Date → Option ℚ) :
    ∀ (revs : List DateInterval), (∀ r ∈ revs, r ∈ zipConsecutive b) →
    List.Pairwise (fun r s : DateInterval => r.start < s.start) revs →
    ∀ g : Date → Option ℚ,
    ∃ g', revs.foldl (debit_step (kmap (0 :: b) fT)) (kmap (0 :: b) g) =
        kmap (0 :: b) g' ∧
      (∀ r ∈ revs, gV g' r.start = gV g r.start - gV fT r.start) ∧
      (∀ k, (∀ r ∈ revs, r.start ≠ k) → g' k = g k) := by
  intro revs
  induction revs with
  | nil =>
    intro _ _ g
    exact ⟨g, rfl, by simp, fun _ _ => rfl⟩
  | cons r rest ih =>
    intro hrevs hpair g
    obtain ⟨g1, hstep, hg1, hother⟩ := debit_step_kmap hch fT (hrevs r (by simp)) g
    obtain ⟨g2, hfold, hdeb, huntouched⟩ :=
      ih (fun x hx => hrevs x (by simp [hx])) (List.pairwise_cons.mp hpair).2 g1
    have hlt := (List.pairwise_cons.mp hpair).1
    refine ⟨g2, ?_, ?_, ?_⟩
    · rw [List.foldl_cons, hstep, hfold]
    · intro r' hr'
      rcases List.mem_cons.mp hr' with h1 | h1
      · subst h1
        have : g2 r'.start = g1 r'.start :=
          huntouched r'.start (fun x hx => ne_of_gt (hlt x hx))
        unfold gV
        rw [this]
        exact hg1
      · have hne : r'.start ≠ r.start := ne_of_gt (hlt r' h1)
        have : gV g1 r'.start = gV g r'.start := by
          unfold gV
          rw [hother r'.start hne]
        rw [hdeb r' h1, this]
    · intro k hk
      rw [huntouched k (fun x hx => hk x (by simp [hx])),
        hother k (fun hc => hk r (by simp) hc.symm)]

/-- The debit the claim describes: the whole scheduled duration goes to the
revolution containing the scheduled interval's mid-point. -/
def claimDebitOfRev (intervals : List DateInterval) (rev : DateInterval) : ℚ :=
  (intervals.map (fun ivl =>
    if rev.containsDate (ivl.start + ivl.duration_secs / 2) true false = true
    then ivl.duration_secs else 0)).sum

/-- **C3** (amended). After a successful solve of a batch, every solver interval
whose solution is non-degenerate (`x_start ≠ x_stop`) is recorded `SCHEDULED` and
its solved interval lies inside the new committed payload list; every degenerate
solution (`x_start = x_stop`) is recorded `EXCEEDED_PAYLOAD_DUTY_CYCLE`; and each
revolution's budget bucket is debited by the total overlap of the consolidated
scheduled list with **that** revolution — an interval crossing a rev boundary is
split by `ivl.intersect(rev)` and each piece is attributed (via its own mid-point)
to the rev containing it, not the whole duration to the rev holding the interval's
mid-point. -/
theorem c3_schedule_batch_success (result : Int) (b : List Date)
    (g : Date → Option ℚ)
    (committed : List DateInterval) (solver_aois : List SolverAoiSol)
    (hres : result_is_successful result = true)
    (hch : List.Pairwise (· < ·) (0 :: b))
    (hcw : ∀ i ∈ committed, wfI i)
    (hsols : ∀ sa ∈ solver_aois, ∀ si ∈ sa.intervals, si.u ≤ si.v) :
    (∀ sa ∈ solver_aois, ∀ si ∈ sa.intervals,
      (si.u ≠ si.v → (sa.aoiId, Result.SCHEDULED) ∈
        (schedule_batch_step result (kmap (0 :: b) g) committed
          (zipConsecutive b) solver_aois).2.2) ∧
      (si.u = si.v → (sa.aoiId, Result.EXCEEDED_PAYLOAD_DUTY_CYCLE) ∈
        (schedule_batch_step result (kmap (0 :: b) g) committed
          (zipConsecutive b) solver_aois).2.2)) ∧
    (∀ sa ∈ solver_aois, ∀ si ∈ sa.intervals, si.u ≠ si.v →
      ∀ t, si.u ≤ t → t < si.v →
        coveredBy (schedule_batch_step result (kmap (0 :: b) g) committed
          (zipConsecutive b) solver_aois).2.1 t) ∧
    (∀ r ∈ zipConsecutive b,
      (kmap (0 :: b) g).get (r.start + r.duration_secs / 2) = some (gV g r.start) ∧
      (schedule_batch_step result (kmap (0 :: b) g) committed
          (zipConsecutive b) solver_aois).1.get (r.start + r.duration_secs / 2) =
        some (gV g r.start -
          totalOverlap (record_and_consolidate_intervals solver_aois).2 r)) := by
  have hsucc : result_is_successful result = true := hres
  have hsolve : solve result solver_aois =
      (result, (record_and_consolidate_intervals solver_aois).1,
       (record_and_consolidate_intervals solver_aois).2) := by
    unfold solve
    rw [hsucc]
    simp
  have hout : schedule_batch_step result (kmap (0 :: b) g) committed
      (zipConsecutive b) solver_aois =
      (apply_debits (kmap (0 :: b) g)
         (compute_totals (0 :: b) (zipConsecutive b)
           (record_and_consolidate_intervals solver_aois).2)
         (zipConsecutive b),
       unionLists committed (record_and_consolidate_intervals solver_aois).2,
       (record_and_consolidate_intervals solver_aois).1) := by
    unfold schedule_batch_step
    rw [hsolve]
    simp only [hsucc, if_true, kmap_dates]
  have hrawwf : ∀ i ∈ solver_aois.flatMap
      (fun sa => sa.intervals.filterMap getSolution), wfI i := by
    intro i hi
    rw [List.mem_flatMap] at hi
    obtain ⟨sa, _, hi2⟩ := hi
    rw [List.mem_filterMap] at hi2
    obtain ⟨si, _, hsol⟩ := hi2
    unfold getSolution at hsol
    split at hsol
    · exact absurd hsol (by simp)
    · injection hsol with hsol
      exact hsol ▸ wfI_make _ _
  have hconswf : ∀ i ∈ (record_and_consolidate_intervals solver_aois).2, wfI i := by
    intro i hi
    exact (reduceIntervals_main _ hrawwf).1 i hi
  refine ⟨?_, ?_, ?_⟩
  · intro sa hsa si hsi
    rw [hout]
    constructor
    · intro hne
      unfold record_and_consolidate_intervals
      simp only
      rw [List.mem_flatMap]
      refine ⟨sa, hsa, ?_⟩
      rw [List.mem_map]
      refine ⟨si, hsi, ?_⟩
      unfold getSolution
      rw [if_neg hne]
    · intro heq
      unfold record_and_consolidate_intervals
      simp only
      rw [List.mem_flatMap]
      refine ⟨sa, hsa, ?_⟩
      rw [List.mem_map]
      refine ⟨si, hsi, ?_⟩
      unfold getSolution
      rw [if_pos heq]
  · intro sa hsa si hsi hne t ht1 ht2
    rw [hout]
    have hcovraw : coveredBy (solver_aois.flatMap
        (fun sa => sa.intervals.filterMap getSolution)) t := by
      refine ⟨DateInterval.make si.u si.v, ?_, ?_⟩
      · rw [List.mem_flatMap]
        refine ⟨sa, hsa, ?_⟩
        rw [List.mem_filterMap]
        refine ⟨si, hsi, ?_⟩
        unfold getSolution
        rw [if_neg hne]
      · rw [make_of_le (hsols sa hsa si hsi)]
        exact ⟨ht1, ht2⟩
    have hcovS : coveredBy (record_and_consolidate_intervals solver_aois).2 t := by
      exact ((reduceIntervals_main _ hrawwf).2.2 t).mpr hcovraw
    have hallwf : ∀ i ∈ committed ++ (record_and_consolidate_intervals solver_aois).2,
        wfI i := by
      intro i hi
      rcases List.mem_append.mp hi with h1 | h1
      · exact hcw i h1
      · exact hconswf i h1
    exact ((reduceIntervals_main _ hallwf).2.2 t).mpr
      (coveredBy_append.mpr (Or.inr hcovS))
  · intro r hrm
    obtain ⟨fT, hT, hTval⟩ :=
      compute_totals_kmap hch (record_and_consolidate_intervals solver_aois).2
    obtain ⟨g', hfold, hdeb, _⟩ := apply_debits_kmap hch fT (zipConsecutive b)
      (fun _ hx => hx) (zip_starts_lt (List.Pairwise.of_cons hch)) g
    have hpos := rev_pos hch hrm
    have hm1 : r.start ≤ r.start + r.duration_secs / 2 := by
      unfold DateInterval.duration_secs
      linarith
    have hm2 : r.start + r.duration_secs / 2 < r.stop := by
      unfold DateInterval.duration_secs
      linarith
    obtain ⟨P, S, hK, hS⟩ := rev_floor_facts hch hrm hm1 hm2
    constructor
    · rw [hK]
      exact kmap_get_at g hm1 hS
    · rw [hout]
      simp only
      have happ : apply_debits (kmap (0 :: b) g)
          (compute_totals (0 :: b) (zipConsecutive b)
            (record_and_consolidate_intervals solver_aois).2)
          (zipConsecutive b) = kmap (0 :: b) g' := by
        rw [show apply_debits (kmap (0 :: b) g)
            (compute_totals (0 :: b) (zipConsecutive b)
              (record_and_consolidate_intervals solver_aois).2)
            (zipConsecutive b) = (zipConsecutive b).foldl
            (debit_step (compute_totals (0 :: b) (zipConsecutive b)
              (record_and_consolidate_intervals solver_aois).2)) (kmap (0 :: b) g)
          from rfl]
        rw [hT]
        exact hfold
      rw [happ, hK]
      rw [kmap_get_at g' hm1 hS]
      rw [hdeb r hrm, hTval r hrm]

/-- Witness for C3 (amended) at one rev [100, 200], empty committed list, and one
aoi with one solver interval solved to [120, 180]. -/
theorem c3_schedule_batch_success_witness :
    (result_is_successful 0 = true ∧
     List.Pairwise (· < ·) ((0 : Date) :: [100, 200]) ∧
     (∀ i ∈ ([] : List DateInterval), wfI i) ∧
     (∀ sa ∈ [(⟨0, [⟨120, 180, ⟨110, 190⟩⟩]⟩ : SolverAoiSol)],
       ∀ si ∈ sa.intervals, si.u ≤ si.v)) ∧
    ((∀ sa ∈ [(⟨0, [⟨120, 180, ⟨110, 190⟩⟩]⟩ : SolverAoiSol)], ∀ si ∈ sa.intervals,
      (si.u ≠ si.v → (sa.aoiId, Result.SCHEDULED) ∈
        (schedule_batch_step 0 (kmap (0 :: [100, 200]) (fun _ => none)) []
          (zipConsecutive [100, 200]) [⟨0, [⟨120, 180, ⟨110, 190⟩⟩]⟩]).2.2) ∧
      (si.u = si.v → (sa.aoiId, Result.EXCEEDED_PAYLOAD_DUTY_CYCLE) ∈
        (schedule_batch_step 0 (kmap (0 :: [100, 200]) (fun _ => none)) []
          (zipConsecutive [100, 200]) [⟨0, [⟨120, 180, ⟨110, 190⟩⟩]⟩]).2.2)) ∧
    (∀ sa ∈ [(⟨0, [⟨120, 180, ⟨110, 190⟩⟩]⟩ : SolverAoiSol)], ∀ si ∈ sa.intervals,
      si.u ≠ si.v → ∀ t, si.u ≤ t → t < si.v →
        coveredBy (schedule_batch_step 0
          (kmap (0 :: [100, 200]) (fun _ => none)) []
          (zipConsecutive [100, 200]) [⟨0, [⟨120, 180, ⟨110, 190⟩⟩]⟩]).2.1 t) ∧
    (∀ r ∈ zipConsecutive [100, 200],
      (kmap (0 :: [100, 200]) (fun _ => none)).get
          (r.start + r.duration_secs / 2) = some (gV (fun _ => none) r.start) ∧
      (schedule_batch_step 0 (kmap (0 :: [100, 200]) (fun _ => none)) []
          (zipConsecutive [100, 200]) [⟨0, [⟨120, 180, ⟨110, 190⟩⟩]⟩]).1.get
          (r.start + r.duration_secs / 2) =
        some (gV (fun _ => none) r.start -
          totalOverlap (record_and_consolidate_intervals
            [⟨0, [⟨120, 180, ⟨110, 190⟩⟩]⟩]).2 r))) := by
  have hch : List.Pairwise (· < ·) ((0 : Date) :: [100, 200]) := by
    norm_num
  have hcw : ∀ i ∈ ([] : List DateInterval), wfI i := by simp
  have hsols : ∀ sa ∈ [(⟨0, [⟨120, 180, ⟨110, 190⟩⟩]⟩ : SolverAoiSol)],
      ∀ si ∈ sa.intervals, si.u ≤ si.v := by
    intro sa hsa si hsi
    rw [List.mem_singleton] at hsa
    subst hsa
    rw [List.mem_singleton] at hsi
    subst hsi
    norm_num
  exact ⟨⟨by decide, hch, hcw, hsols⟩,
    c3_schedule_batch_success 0 [100, 200] (fun _ => none) []
      [⟨0, [⟨120, 180, ⟨110, 190⟩⟩]⟩] (by decide) hch hcw hsols⟩

/-- **C3** (counterexample). One scheduled interval [5900, 6100] crossing the rev
boundary 6000 of revs [0,6000] and [6000,12000], with both rev budgets seeded at
300: the code debits the first rev's bucket by the 100-second piece [5900,6000]
(leaving 200), whereas the claim — which attributes the whole 200-second duration
to the rev containing the mid-point 6000, i.e. the second rev — demands the first
rev's budget stay at 300. -/
theorem c3_midpoint_debit_counterexample :
    ((schedule_batch_step 0
        (((mkDateIndexed [0, 6000, 12000] (some 0)).set 100 300).set 6100 300)
        [] [⟨0, 6000⟩, ⟨6000, 12000⟩]
        [⟨0, [⟨5900, 6100, ⟨5900, 6100⟩⟩]⟩]).1.get 100 = some 200) ∧
    (claimDebitOfRev [⟨5900, 6100⟩] ⟨0, 6000⟩ = 0) ∧
    ((200 : ℚ) ≠ 300 - 0) := by
  refine ⟨?_, ?_, by norm_num⟩
  · have hmk : DateInterval.make 5900 6100 = (⟨5900, 6100⟩ : DateInterval) :=
      make_of_le (by norm_num)
    have hrc : record_and_consolidate_intervals [⟨0, [⟨5900, 6100, ⟨5900, 6100⟩⟩]⟩] =
        ([(0, Result.SCHEDULED)], [⟨5900, 6100⟩]) := by
      unfold record_and_consolidate_intervals getSolution
      norm_num [hmk, reduceIntervals, sortIntervals, List.insertionSort,
        List.orderedInsert, mergeLoop]
    have hsolve0 : solve 0 [⟨0, [⟨5900, 6100, ⟨5900, 6100⟩⟩]⟩] =
        (0, [(0, Result.SCHEDULED)], [⟨5900, 6100⟩]) := by
      unfold solve
      rw [show result_is_successful 0 = true from by decide]
      simp [hrc]
    have hlim : ((mkDateIndexed [0, 6000, 12000] (some 0)).set 100 300).set 6100 300 =
        ⟨[(0, some 300), (6000, some 300), (12000, none)], some 0⟩ := by
      norm_num [mkDateIndexed, sortDates, dedupDates, List.insertionSort,
        List.orderedInsert, DateIndexed.set, DateIndexed.find?, List.find?]
    have hb1 : totals_bump ⟨5900, 6100⟩
        (⟨[(0, none), (6000, none), (12000, none)], some 0⟩ : DateIndexed)
        ⟨0, 6000⟩ =
        ⟨[(0, some 100), (6000, none), (12000, none)], some 0⟩ := by
      have hi : (⟨5900, 6100⟩ : DateInterval).intersect ⟨0, 6000⟩ =
          some ⟨5900, 6000⟩ := by
        norm_num [DateInterval.intersect, compareTo, DateInterval.make]
      unfold totals_bump
      rw [hi]
      norm_num [DateIndexed.get, DateIndexed.set, DateIndexed.find?, List.find?,
        DateInterval.duration_secs]
    have hb2 : totals_bump ⟨5900, 6100⟩
        (⟨[(0, some 100), (6000, none), (12000, none)], some 0⟩ : DateIndexed)
        ⟨6000, 12000⟩ =
        ⟨[(0, some 100), (6000, some 100), (12000, none)], some 0⟩ := by
      have hi : (⟨5900, 6100⟩ : DateInterval).intersect ⟨6000, 12000⟩ =
          some ⟨6000, 6100⟩ := by
        norm_num [DateInterval.intersect, compareTo, DateInterval.make]
      unfold totals_bump
      rw [hi]
      norm_num [DateIndexed.get, DateIndexed.set, DateIndexed.find?, List.find?,
        DateInterval.duration_secs]
    have hmk0 : mkDateIndexed [0, 6000, 12000] (some 0) =
        ⟨[(0, none), (6000, none), (12000, none)], some 0⟩ := by
      norm_num [mkDateIndexed, sortDates, dedupDates, List.insertionSort,
        List.orderedInsert]
    have htot : compute_totals [0, 6000, 12000] [⟨0, 6000⟩, ⟨6000, 12000⟩]
        [⟨5900, 6100⟩] =
        ⟨[(0, some 100), (6000, some 100), (12000, none)], some 0⟩ := by
      unfold compute_totals
      rw [hmk0]
      simp only [List.foldl_cons, List.foldl_nil]
      rw [hb1, hb2]
    have hd1 : debit_step
        (⟨[(0, some 100), (6000, some 100), (12000, none)], some 0⟩ : DateIndexed)
        (⟨[(0, some 300), (6000, some 300), (12000, none)], some 0⟩ : DateIndexed)
        ⟨0, 6000⟩ =
        ⟨[(0, some 200), (6000, some 300), (12000, none)], some 0⟩ := by
      norm_num [debit_step, DateIndexed.set, DateIndexed.get, DateIndexed.find?,
        List.find?, DateInterval.duration_secs]
    have hd2 : debit_step
        (⟨[(0, some 100), (6000, some 100), (12000, none)], some 0⟩ : DateIndexed)
        (⟨[(0, some 200), (6000, some 300), (12000, none)], some 0⟩ : DateIndexed)
        ⟨6000, 12000⟩ =
        ⟨[(0, some 200), (6000, some 200), (12000, none)], some 0⟩ := by
      norm_num [debit_step, DateIndexed.set, DateIndexed.get, DateIndexed.find?,
        List.find?, DateInterval.duration_secs]
    have hdeb : apply_debits
        (⟨[(0, some 300), (6000, some 300), (12000, none)], some 0⟩ : DateIndexed)
        (⟨[(0, some 100), (6000, some 100), (12000, none)], some 0⟩ : DateIndexed)
        [⟨0, 6000⟩, ⟨6000, 12000⟩] =
        ⟨[(0, some 200), (6000, some 200), (12000, none)], some 0⟩ := by
      unfold apply_debits
      simp only [List.foldl_cons, List.foldl_nil]
      rw [hd1, hd2]
    have hstep : (schedule_batch_step 0
        (((mkDateIndexed [0, 6000, 12000] (some 0)).set 100 300).set 6100 300)
        [] [⟨0, 6000⟩, ⟨6000, 12000⟩]
        [⟨0, [⟨5900, 6100, ⟨5900, 6100⟩⟩]⟩]).1 =
        ⟨[(0, some 200), (6000, some 200), (12000, none)], some 0⟩ := by
      unfold schedule_batch_step
      rw [hsolve0, hlim]
      rw [show result_is_successful 0 = true from by decide]
      simp only [if_true]
      rw [show (⟨[(0, some 300), (6000, some 300), (12000, none)], some 0⟩ :
        DateIndexed).dates = [0, 6000, 12000] from rfl]
      rw [htot, hdeb]
    rw [hstep]
    norm_num [DateIndexed.get, DateIndexed.find?, List.find?]
  · have hmid : (⟨5900, 6100⟩ : DateInterval).start +
        (⟨5900, 6100⟩ : DateInterval).duration_secs / 2 = 6000 := by
      norm_num [DateInterval.duration_secs]
    have hc : (⟨0, 6000⟩ : DateInterval).containsDate 6000 true false = false := by
      rw [← Bool.not_eq_true, DateInterval.containsDate, containedInDate_default_eq]
      norm_num
    norm_num [claimDebitOfRev, hmid, hc]

/-! ## C8: footprint-detector retry and fallback (spec-modelled) -/

/-- The geometry detector finally registered for one (satellite, sensor, aoi). -/
inductive DetectorChoice
  | footprint (sampleDist : ℚ)
  | subSatPoint (tolerance : ℚ)
  | emptyAccess
deriving DecidableEq, Repr

/-- Modelled from the spec: the `preprocess` unit-of-work function (imported by
`satscheduler/preprocessor/__init__.py` from `.preprocessor`) is not present under
src/ — the `preprocessor.py` in the tree is an older variant without this logic.
Per the spec: build `FootprintOverlapDetector(fov, centralBody, zone, sample_dist)`
starting at `sample_dist = 20 km` (20000 m), doubling the sample distance on each
construction failure, for up to four attempts.  `footprintOk d` abstracts whether
construction succeeds at sample distance `d`. -/
def try_footprint (footprintOk : ℚ → Bool) : ℕ → ℚ → Option ℚ
  | 0, _ => none
  | n + 1, dist =>
    if footprintOk dist then some dist else try_footprint footprintOk n (2 * dist)

/-- Modelled from the spec: after four failed construction attempts, fall back to a
`GeographicZoneDetector(centralBody, zone, 1e-6)` on the sub-satellite point
(`zoneOk` abstracts whether that construction succeeds); if that fails too the aoi
is downgraded to empty access. -/
def register_aoi_detector (footprintOk : ℚ → Bool) (zoneOk : Bool) : DetectorChoice :=
  match try_footprint footprintOk 4 20000 with
  | some d => DetectorChoice.footprint d
  | none =>
    if zoneOk then DetectorChoice.subSatPoint (1 / 1000000)
    else DetectorChoice.emptyAccess

/-- Modelled from the spec: the aoi's recorded access intervals after detector
registration — on total construction failure the aoi is recorded with empty access
intervals and the unit of work continues. -/
def aoi_access_after_registration (footprintOk : ℚ → Bool) (zoneOk : Bool)
    (detected : List DateInterval) : List DateInterval :=
  match register_aoi_detector footprintOk zoneOk with
  | DetectorChoice.emptyAccess => []
  | _ => detected

/-- **C8**. The footprint detector starts at sample distance 20 km and doubles on
each construction failure for up to four attempts, so a first success at attempt
`k` registers a footprint detector with sample distance `20000·2^k`; when all four
attempts fail, a `GeographicZoneDetector` with tolerance 1e-6 on the sub-satellite
point is used; when that construction fails too, the aoi is downgraded to empty
access intervals instead of aborting the unit of work. -/
theorem c8_detector_retry_fallback (footprintOk : ℚ → Bool) (zoneOk : Bool)
    (detected : List DateInterval) (k : ℕ) (hk : k < 4)
    (hfail : ∀ j, j < k → footprintOk (20000 * 2 ^ j) = false) :
    (footprintOk (20000 * 2 ^ k) = true →
      register_aoi_detector footprintOk zoneOk =
        DetectorChoice.footprint (20000 * 2 ^ k)) ∧
    ((∀ j, j < 4 → footprintOk (20000 * 2 ^ j) = false) →
      register_aoi_detector footprintOk zoneOk =
        (if zoneOk then DetectorChoice.subSatPoint (1 / 1000000)
         else DetectorChoice.emptyAccess) ∧
      (zoneOk = false →
        aoi_access_after_registration footprintOk zoneOk detected = [])) := by
  constructor
  · intro hsucc
    unfold register_aoi_detector
    interval_cases k
    · norm_num at hsucc
      have ht : try_footprint footprintOk 4 20000 = some 20000 := by
        norm_num [try_footprint, hsucc]
      rw [ht]
      norm_num
    · have h0 : footprintOk 20000 = false := by
        have := hfail 0 (by omega)
        norm_num at this
        exact this
      norm_num at hsucc
      have ht : try_footprint footprintOk 4 20000 = some 40000 := by
        norm_num [try_footprint, h0, hsucc]
      rw [ht]
      norm_num
    · have h0 : footprintOk 20000 = false := by
        have := hfail 0 (by omega)
        norm_num at this
        exact this
      have h1 : footprintOk 40000 = false := by
        have := hfail 1 (by omega)
        norm_num at this
        exact this
      norm_num at hsucc
      have ht : try_footprint footprintOk 4 20000 = some 80000 := by
        norm_num [try_footprint, h0, h1, hsucc]
      rw [ht]
      norm_num
    · have h0 : footprintOk 20000 = false := by
        have := hfail 0 (by omega)
        norm_num at this
        exact this
      have h1 : footprintOk 40000 = false := by
        have := hfail 1 (by omega)
        norm_num at this
        exact this
      have h2 : footprintOk 80000 = false := by
        have := hfail 2 (by omega)
        norm_num at this
        exact this
      norm_num at hsucc
      have ht : try_footprint footprintOk 4 20000 = some 160000 := by
        norm_num [try_footprint, h0, h1, h2, hsucc]
      rw [ht]
      norm_num
  · intro hall
    have h0 : footprintOk 20000 = false := by
      have := hall 0 (by omega)
      norm_num at this
      exact this
    have h1 : footprintOk 40000 = false := by
      have := hall 1 (by omega)
      norm_num at this
      exact this
    have h2 : footprintOk 80000 = false := by
      have := hall 2 (by omega)
      norm_num at this
      exact this
    have h3 : footprintOk 160000 = false := by
      have := hall 3 (by omega)
      norm_num at this
      exact this
    have ht : try_footprint footprintOk 4 20000 = none := by
      norm_num [try_footprint, h0, h1, h2, h3]
    have hreg : register_aoi_detector footprintOk zoneOk =
        (if zoneOk then DetectorChoice.subSatPoint (1 / 1000000)
         else DetectorChoice.emptyAccess) := by
      unfold register_aoi_detector
      rw [ht]
    refine ⟨hreg, ?_⟩
    intro hz
    unfold aoi_access_after_registration
    rw [hreg, hz]
    simp

/-- Witness for C8 at attempt index 2 with oracle succeeding only at 80 km. -/
theorem c8_detector_retry_fallback_witness :
    ((2 : ℕ) < 4 ∧
     (∀ j, j < 2 → (fun d : ℚ => decide (d = 80000)) (20000 * 2 ^ j) = false)) ∧
    (((fun d : ℚ => decide (d = 80000)) (20000 * 2 ^ 2) = true →
      register_aoi_detector (fun d : ℚ => decide (d = 80000)) true =
        DetectorChoice.footprint (20000 * 2 ^ 2)) ∧
     ((∀ j, j < 4 → (fun d : ℚ => decide (d = 80000)) (20000 * 2 ^ j) = false) →
      register_aoi_detector (fun d : ℚ => decide (d = 80000)) true =
        (if true then DetectorChoice.subSatPoint (1 / 1000000)
         else DetectorChoice.emptyAccess) ∧
      (true = false →
        aoi_access_after_registration (fun d : ℚ => decide (d = 80000)) true [] = []))) := by
  have hfail : ∀ j, j < 2 → (fun d : ℚ => decide (d = 80000)) (20000 * 2 ^ j) = false := by
    intro j hj
    interval_cases j <;> norm_num
  exact ⟨⟨by omega, hfail⟩,
    c8_detector_retry_fallback (fun d : ℚ => decide (d = 80000)) true [] 2
      (by omega) hfail⟩

/-! ## C9: Schedule JSON round-trip (scheduler/core.py) -/

/-- Python/JSON values handled by `ScheduleEncoder` and `from_json`.  `pdate d`
stands for the ISO-8601 string `str(date)` of a date (formatting kept abstract,
distinct dates rendering distinctly); `pcls` is a Python class object — the stray
argument that `from_json` passes along. -/
inductive PyVal
  | pstr (s : String)
  | pdate (d : Date)
  | plist (xs : List PyVal)
  | pdict (kvs : List (String × PyVal))
  | pnone
  | pcls

/-- A `ScheduleActivity` value (the optional fields fixed present; `properties`
omitted). -/
structure PyScheduleActivity where
  interval : DateInterval
  id : String
  sat_id : String
  payload_id : String

/-- A `Schedule` value. -/
structure PySchedule where
  id : String
  intervals : List DateInterval
  activities : List PyScheduleActivity

/-- `ScheduleEncoder.default` on a `DateInterval`: `[str(start), str(stop)]`. -/
def encodeInterval (i : DateInterval) : PyVal :=
  PyVal.plist [PyVal.pdate i.start, PyVal.pdate i.stop]

/-- `ScheduleActivity.to_dict` through the encoder. -/
def activity_to_dict (a : PyScheduleActivity) : PyVal :=
  PyVal.pdict [("interval", encodeInterval a.interval), ("id", PyVal.pstr a.id),
    ("sat_id", PyVal.pstr a.sat_id), ("payload_id", PyVal.pstr a.payload_id)]

/-- `Schedule.to_dict` through the encoder. -/
def schedule_to_dict (s : PySchedule) : PyVal :=
  PyVal.pdict [("id", PyVal.pstr s.id),
    ("intervals", PyVal.plist (s.intervals.map encodeInterval)),
    ("activities", PyVal.plist (s.activities.map activity_to_dict))]

/-- `ScheduleBase.to_json` composed with `json.loads`: the serialized text parses
back to the encoded value tree (`json.dumps`/`loads` round-trip the tree). -/
def schedule_to_json (s : PySchedule) : PyVal := schedule_to_dict s

/-- `orekitfactory.factory.to_absolute_date` on a serialized date string. -/
def decodeDate : PyVal → Option Date
  | PyVal.pdate d => some d
  | _ => none

/-- The `as_dateinterval` dacite type hook on a `[startISO, stopISO]` pair. -/
def decodeInterval : PyVal → Option DateInterval
  | PyVal.plist [a, b] =>
    match decodeDate a, decodeDate b with
    | some x, some y => some (DateInterval.make x y)
    | _, _ => none
  | _ => none

/-- Dictionary key lookup. -/
def dget (kvs : List (String × PyVal)) (k : String) : Option PyVal :=
  (kvs.find? (fun e => e.1 = k)).map Prod.snd

/-- Decode a homogeneous list, failing if any element fails. -/
def decodeList {α : Type} (f : PyVal → Option α) : List PyVal → Option (List α)
  | [] => some []
  | x :: r =>
    match f x, decodeList f r with
    | some a, some l => some (a :: l)
    | _, _ => none

/-- Dacite's decoding of one activity dict. -/
def decodeActivity : PyVal → Option PyScheduleActivity
  | PyVal.pdict kvs =>
    match dget kvs "interval", dget kvs "id", dget kvs "sat_id",
        dget kvs "payload_id" with
    | some iv, some (PyVal.pstr i), some (PyVal.pstr s), some (PyVal.pstr p) =>
      (decodeInterval iv).map (fun ivl => ⟨ivl, i, s, p⟩)
    | _, _, _, _ => none
  | _ => none

/-- `dacite.from_dict(data_class=Schedule, data=..., config=_DACITE_CONFIG)`. -/
def decodeSchedule : PyVal → Option PySchedule
  | PyVal.pdict kvs =>
    match dget kvs "id", dget kvs "intervals", dget kvs "activities" with
    | some (PyVal.pstr i), some (PyVal.plist ivs), some (PyVal.plist acts) =>
      match decodeList decodeInterval ivs, decodeList decodeActivity acts with
      | some l1, some l2 => some ⟨i, l1, l2⟩
      | _, _ => none
    | _, _, _ => none
  | _ => none

/-- `ScheduleBase.from_dict` as a Python callable: the classmethod takes one
positional argument `data` and decodes it; a call with any other number of
positional arguments raises `TypeError`. -/
def from_dict_argv (args : List PyVal) : Except PyErr PySchedule :=
  match args with
  | [data] =>
    match decodeSchedule data with
    | some s => Except.ok s
    | none => Except.error PyErr.typeError
  | _ => Except.error PyErr.typeError

/-- `ScheduleBase.from_json`: parse the json, then `return cls.from_dict(cls, data)`
— the bound classmethod receives `cls` as an extra positional argument (three in
total where its signature takes two). -/
def schedule_from_json (j : PyVal) : Except PyErr PySchedule :=
  from_dict_argv [PyVal.pcls, j]

theorem decodeList_map {α : Type} (f : PyVal → Option α) (g : α → PyVal)
    (l : List α) (h : ∀ x ∈ l, f (g x) = some x) :
    decodeList f (l.map g) = some l := by
  induction l with
  | nil => rfl
  | cons x r ih =>
    rw [List.map_cons]
    unfold decodeList
    rw [h x (by simp), ih (fun y hy => h y (by simp [hy]))]

/-- The one-argument call would succeed: decoding an encoded schedule recovers it
(intervals being canonical, start ≤ stop). -/
theorem from_dict_single_roundtrip (s : PySchedule)
    (hwf : ∀ i ∈ s.intervals, wfI i)
    (hwfa : ∀ a ∈ s.activities, wfI a.interval) :
    from_dict_argv [schedule_to_json s] = Except.ok s := by
  have hdi : ∀ i ∈ s.intervals, decodeInterval (encodeInterval i) = some i := by
    intro i hi
    unfold encodeInterval decodeInterval decodeDate
    simp only
    rw [make_of_le (hwf i hi)]
  have hda : ∀ a ∈ s.activities, decodeActivity (activity_to_dict a) = some a := by
    intro a ha
    unfold activity_to_dict decodeActivity
    simp [dget, List.find?]
    unfold encodeInterval decodeInterval decodeDate
    simp only
    rw [make_of_le (hwfa a ha)]
    exact ⟨a.interval, rfl, rfl⟩
  unfold from_dict_argv schedule_to_json schedule_to_dict decodeSchedule
  simp [dget, List.find?]
  rw [decodeList_map _ _ _ hdi, decodeList_map _ _ _ hda]

/-- **C9** (code_bug evidence). For every `Schedule`, serializing and deserializing
raises `TypeError` instead of returning a schedule: `from_json` executes
`cls.from_dict(cls, data)`, passing the class object as an extra positional
argument to the two-parameter classmethod.  The decoding itself is lossless
(`from_dict_single_roundtrip`), so the round-trip fails solely because of the call. -/
theorem c9_from_json_always_raises (s : PySchedule) :
    schedule_from_json (schedule_to_json s) = Except.error PyErr.typeError := rfl

end SatScheduler
